import Mathlib

/- Verification of the typeBrew font-parser core: a shallow embedding of
`src/src-tauri/src/font_parser.rs` together with theorems about its
table-rebuild, outline-codec, composite-patch and path-language functions.

Machine integers are modelled as `Nat`/`Int` with explicit `% 2 ^ w` wherever
the Rust code can wrap, truncate or saturate; `f32` values are modelled by the
rational numbers they denote (every finite f32 is a rational, and the
operations the code performs on them — comparison, negation, rounding — are
exact on the denoted value).  External collaborators (skrifa decoding,
write-fonts table composition, the filesystem) enter as explicit function
parameters or `Option`-valued inputs. -/

namespace FontParser

/- ── Byte-level helpers ─────────────────────────────────────────────────── -/

/-- Big-endian bytes of a `u16` (`u16::to_be_bytes`). -/
def toBE16 (n : Nat) : List Nat := [n / 256 % 256, n % 256]

/-- Little-endian bytes of a `u16` (`u16::to_le_bytes`). -/
def toLE16 (n : Nat) : List Nat := [n % 256, n / 256 % 256]

/-- Little-endian bytes of a `u32` (`u32::to_le_bytes`). -/
def toLE32 (n : Nat) : List Nat :=
  [n % 256, n / 2 ^ 8 % 256, n / 2 ^ 16 % 256, n / 2 ^ 24 % 256]

/-- Big-endian bytes of a `u32` (`u32::to_be_bytes`). -/
def toBE32 (n : Nat) : List Nat :=
  [n / 2 ^ 24 % 256, n / 2 ^ 16 % 256, n / 2 ^ 8 % 256, n % 256]

/-- `u16::from_be_bytes([b0, b1])`. -/
def u16be (b0 b1 : Nat) : Nat := b0 * 256 + b1

/-- `u32::from_be_bytes([b0, b1, b2, b3])`. -/
def u32be (b0 b1 b2 b3 : Nat) : Nat :=
  ((b0 * 256 + b1) * 256 + b2) * 256 + b3

/-- Value of an `i16` read with `i16::from_be_bytes` from the `u16` `v`. -/
def i16ofU16 (v : Nat) : Int :=
  if v % 65536 < 32768 then (v % 65536 : Int) else (v % 65536 : Int) - 65536

/-- Value of an `i8` obtained from the byte `b` by `as i8`. -/
def i8ofByte (b : Nat) : Int :=
  if b % 256 < 128 then (b % 256 : Int) else (b % 256 : Int) - 256

/-- The `u16` bit pattern of an `i16` value (`to_be_bytes` input). -/
def u16ofI16 (v : Int) : Nat := (v % 65536).toNat

/-- The `u8` bit pattern of an `i8` value (`as u8`). -/
def u8ofI8 (v : Int) : Nat := (v % 256).toNat

/-- Rust `f32::round`: round half away from zero, exact on the denoted
rational. -/
def ratRound (x : ℚ) : Int :=
  if 0 ≤ x then ⌊x + 1 / 2⌋ else -⌊-x + 1 / 2⌋

/-- Rust `as i16` on a float: saturating cast (NaN cannot arise for a
rational-valued input). -/
def i16cast (v : Int) : Int := max (-32768) (min 32767 v)

/-- Rust `as i8` on a float: saturating cast. -/
def i8cast (v : Int) : Int := max (-128) (min 127 v)

/- ── glyf/loca rebuild (`rebuild_glyf_with_patch`) ──────────────────────── -/

/-- The `while !new_glyf.len().is_multiple_of(4) { new_glyf.push(0) }` padding
step: append zero bytes until the length is a multiple of 4. -/
def pad4 (l : List Nat) : List Nat :=
  l ++ List.replicate ((4 - l.length % 4) % 4) 0

/-- The bytes appended for glyph `i` in the rebuild loop: the replacement
bytes when `i == glyph_id`, else the original slice `[loca[i], loca[i+1])`
when `i < current_num` and the slice is non-empty and in bounds, else
nothing (synthesised empty glyph). -/
def glyphBody (glyf : List Nat) (offsets : List Nat) (currentNum glyphId : Nat)
    (newGlyph : List Nat) (i : Nat) : List Nat :=
  if i = glyphId then newGlyph
  else if i < currentNum then
    let start := offsets.getD i 0
    let stop := offsets.getD (i + 1) 0
    if start < stop ∧ stop ≤ glyf.length then
      (glyf.drop start).take (stop - start)
    else []
  else []

/-- One iteration of the rebuild loop of `rebuild_glyf_with_patch`: record the
current length of the new glyf (as `u32`, wrapping) as the next loca offset,
append the glyph body, pad to a 4-byte boundary. -/
def rebuildStep (glyf : List Nat) (offsets : List Nat) (currentNum glyphId : Nat)
    (newGlyph : List Nat) (acc : List Nat × List Nat) (i : Nat) :
    List Nat × List Nat :=
  (pad4 (acc.1 ++ glyphBody glyf offsets currentNum glyphId newGlyph i),
   acc.2 ++ [acc.1.length % 2 ^ 32])

/-- The offset-building loop of `rebuild_glyf_with_patch`, including the final
sentinel push `offsets[target_num_glyphs] = len(new_glyf)`.  Returns the new
glyf bytes and the (decoded) new loca offsets. -/
def rebuildGlyfOffsets (glyf : List Nat) (offsets : List Nat) (glyphId : Nat)
    (newGlyph : List Nat) (targetNumGlyphs : Nat) : List Nat × List Nat :=
  let currentNum := offsets.length - 1
  let r := (List.range targetNumGlyphs).foldl
    (rebuildStep glyf offsets currentNum glyphId newGlyph) ([], [])
  (r.1, r.2 ++ [r.1.length % 2 ^ 32])

/-- Loca encoding of `rebuild_glyf_with_patch`: long format writes raw `u32`
big-endian offsets; short format writes `u16` big-endian `offset / 2` values
and fails when any offset exceeds `0x1FFFE`. -/
def encodeLoca (offsets : List Nat) (isLong : Bool) : Except String (List Nat) :=
  if isLong then .ok ((offsets.map toBE32).flatten)
  else if offsets.any (fun o => 0x1FFFE < o) then
    .error "glyf table too large for short loca format"
  else .ok ((offsets.map (fun o => toBE16 (o / 2))).flatten)

/-- `rebuild_glyf_with_patch`: rebuild glyf and loca in lock-step. -/
def rebuild_glyf_with_patch (glyf : List Nat) (offsets : List Nat)
    (glyphId : Nat) (newGlyph : List Nat) (isLong : Bool)
    (targetNumGlyphs : Nat) : Except String (List Nat × List Nat) :=
  let r := rebuildGlyfOffsets glyf offsets glyphId newGlyph targetNumGlyphs
  match encodeLoca r.2 isLong with
  | .error e => .error e
  | .ok loca => .ok (r.1, loca)

/-- `parse_loca_offsets`: decode `n_plus_one` loca entries, pushing 0 for any
entry that runs past the end of the table bytes. -/
def parse_loca_offsets (loca : List Nat) (nPlusOne : Nat) (isLong : Bool) :
    List Nat :=
  (List.range nPlusOne).map (fun i =>
    if isLong then
      if i * 4 + 4 ≤ loca.length then
        u32be (loca.getD (i * 4) 0) (loca.getD (i * 4 + 1) 0)
          (loca.getD (i * 4 + 2) 0) (loca.getD (i * 4 + 3) 0)
      else 0
    else
      if i * 2 + 2 ≤ loca.length then
        u16be (loca.getD (i * 2) 0) (loca.getD (i * 2 + 1) 0) * 2
      else 0)

/- ── Binary outline codec (`encode_glyph_outlines_binary`) ──────────────── -/

/-- A `GlyphOutline` as the binary codec sees it.  `advance_bits` and the
bounds fields carry the 32-bit IEEE-754 patterns of the `f32` values (the
codec copies the four bytes of each float verbatim, so the bit pattern is the
faithful representation); the name and path are their UTF-8 byte strings. -/
structure GlyphOutlineB where
  glyph_id : Nat
  advance_bits : Nat
  bounds_bits : Option (Nat × Nat × Nat × Nat)
  name_bytes : List Nat
  path_bytes : List Nat
deriving DecidableEq, Repr

/-- Per-glyph record of `encode_glyph_outlines_binary`. -/
def encodeGlyphRec (g : GlyphOutlineB) : List Nat :=
  toLE32 g.glyph_id ++ toLE32 g.advance_bits ++
  (match g.bounds_bits with
   | some (x0, y0, x1, y1) => 1 :: (toLE32 x0 ++ toLE32 y0 ++ toLE32 x1 ++ toLE32 y1)
   | none => [0]) ++
  toLE16 (g.name_bytes.length % 2 ^ 16) ++ g.name_bytes ++
  toLE32 (g.path_bytes.length % 2 ^ 32) ++ g.path_bytes

/-- `encode_glyph_outlines_binary`: header (`total_glyphs` LE u32,
`batch_count` LE u32, `units_per_em` LE u16) followed by the per-glyph
records. -/
def encode_glyph_outlines_binary (outlines : List GlyphOutlineB)
    (totalGlyphs : Nat) (unitsPerEm : Nat) : List Nat :=
  toLE32 totalGlyphs ++ toLE32 (outlines.length % 2 ^ 32) ++
  toLE16 unitsPerEm ++ (outlines.map encodeGlyphRec).flatten

/-- The memoised `CachedOutlines` entry for a path. -/
structure CachedOutlinesM where
  outlines : List GlyphOutlineB
  units_per_em : Nat
  num_glyphs : Nat
deriving DecidableEq, Repr

/-- The page served by `get_glyph_outlines_binary`:
`outlines[start..end]` with `start = min(offset, n)` and
`end = min(offset + limit, n)`. -/
def servePage (c : CachedOutlinesM) (offset limit : Nat) : List GlyphOutlineB :=
  let n := c.outlines.length
  let start := min offset n
  let stop := min (offset + limit) n
  (c.outlines.drop start).take (stop - start)

/-- `cache.get(path).unwrap_or_else(|| fs::read(path).unwrap_or_default())`:
the cached byte buffer if present, else the file bytes (`[]` models a failed
or empty read). -/
def availBytes (cacheBytes : Option (List Nat)) (fileBytes : List Nat) :
    List Nat :=
  cacheBytes.getD fileBytes

/-- `get_glyph_outlines_binary`.  `cached` is the outlines-cache entry for the
path; when absent the function loads bytes, extracts outlines and memoises.
The external steps are inputs: `extract` is the result of
`extract_glyph_outlines` on the bytes, `fontOk` whether `RawFontRef::new`
succeeds, `headUpem`/`maxpN` the results of reading `head.units_per_em` and
`maxp.num_glyphs`.  Returns the served bytes together with the
outlines-cache entry afterwards. -/
def get_glyph_outlines_binary (cached : Option CachedOutlinesM) (path : String)
    (cacheBytes : Option (List Nat)) (fileBytes : List Nat)
    (extract : Except String (List GlyphOutlineB)) (fontOk : Bool)
    (headUpem : Option Nat) (maxpN : Option Nat) (offset limit : Nat) :
    Except String (List Nat × CachedOutlinesM) :=
  match cached with
  | some c =>
      .ok (encode_glyph_outlines_binary (servePage c offset limit)
             c.num_glyphs c.units_per_em, c)
  | none =>
      if availBytes cacheBytes fileBytes = [] then
        .error ("Failed to read font file: " ++ path)
      else
        match extract with
        | .error e => .error e
        | .ok outs =>
            if fontOk then
              let c : CachedOutlinesM :=
                { outlines := outs
                  units_per_em := headUpem.getD 1000
                  num_glyphs := maxpN.getD outs.length }
              .ok (encode_glyph_outlines_binary (servePage c offset limit)
                     c.num_glyphs c.units_per_em, c)
            else .error "Invalid font file"

/- ── Composite-glyph binary codec ───────────────────────────────────────── -/

/- Flag bits (`u16`): ARG_1_AND_2_ARE_WORDS = 0x0001 (bit 0),
ARGS_ARE_XY_VALUES = 0x0002 (bit 1), WE_HAVE_A_SCALE = 0x0008 (bit 3),
MORE_COMPONENTS = 0x0020 (bit 5), WE_HAVE_AN_X_AND_Y_SCALE = 0x0040 (bit 6),
WE_HAVE_A_TWO_BY_TWO = 0x0080 (bit 7). -/

/-- Number of transform bytes consumed for a component, by its flags. -/
def transformLen (flags : Nat) : Nat :=
  if flags.testBit 7 then 8
  else if flags.testBit 6 then 4
  else if flags.testBit 3 then 2
  else 0

/-- One iteration of the `parse_composite_components` loop on the remaining
bytes (the Rust indexes with a monotone cursor `pos`; the suffix of bytes
from `pos` is the same data): read flags and glyph id, read the argument
bytes in the flag-selected width, skip the transform, and report the parsed
component, the `MORE_COMPONENTS` bit and the remaining bytes.  `none` is the
truncation `break`. -/
def parseCompStep (rest : List Nat) : Option ((Nat × ℚ × ℚ) × Bool × List Nat) :=
  match rest with
  | f0 :: f1 :: g0 :: g1 :: r1 =>
    let flags := u16be f0 f1
    if flags.testBit 0 then
      match r1 with
      | a0 :: a1 :: a2 :: a3 :: r2 =>
        let xy : ℚ × ℚ :=
          if flags.testBit 1 then
            ((i16ofU16 (u16be a0 a1) : ℚ), (i16ofU16 (u16be a2 a3) : ℚ))
          else (0, 0)
        some ((u16be g0 g1, xy), flags.testBit 5, r2.drop (transformLen flags))
      | _ => none
    else
      match r1 with
      | a0 :: a1 :: r2 =>
        let xy : ℚ × ℚ :=
          if flags.testBit 1 then ((i8ofByte a0 : ℚ), (i8ofByte a1 : ℚ))
          else (0, 0)
        some ((u16be g0 g1, xy), flags.testBit 5, r2.drop (transformLen flags))
      | _ => none
  | _ => none

/-- Part of the termination argument of `parseCompLoop`: each loop step
consumes at least one byte. -/
theorem parseCompStep_rest_length {rest : List Nat}
    {c : Nat × ℚ × ℚ} {m : Bool} {r3 : List Nat}
    (h : parseCompStep rest = some (c, m, r3)) : r3.length < rest.length := by
  rcases rest with _ | ⟨f0, rest⟩
  · simp [parseCompStep] at h
  rcases rest with _ | ⟨f1, rest⟩
  · simp [parseCompStep] at h
  rcases rest with _ | ⟨g0, rest⟩
  · simp [parseCompStep] at h
  rcases rest with _ | ⟨g1, r1⟩
  · simp [parseCompStep] at h
  simp only [parseCompStep] at h
  split at h
  · rcases r1 with _ | ⟨a0, _ | ⟨a1, _ | ⟨a2, _ | ⟨a3, r2⟩⟩⟩⟩ <;> simp at h
    obtain ⟨-, -, h3⟩ := h
    subst h3
    simp only [List.length_cons, List.length_drop]
    omega
  · rcases r1 with _ | ⟨a0, _ | ⟨a1, r2⟩⟩ <;> simp at h
    obtain ⟨-, -, h3⟩ := h
    subst h3
    simp only [List.length_cons, List.length_drop]
    omega

/-- The loop of `parse_composite_components`: iterate `parseCompStep` while
`MORE_COMPONENTS` is set.  Every truncation `break` returns the components
collected so far — the function is total and never reports an error. -/
def parseCompLoop (rest : List Nat) : List (Nat × ℚ × ℚ) :=
  match h : parseCompStep rest with
  | none => []
  | some (c, m, r3) => c :: (if m then parseCompLoop r3 else [])
termination_by rest.length
decreasing_by exact parseCompStep_rest_length h

/-- `parse_composite_components`: glyph ids and x/y offsets of the component
records (`outline` is always absent in the Rust result and is omitted). -/
def parse_composite_components (data : List Nat) : List (Nat × ℚ × ℚ) :=
  parseCompLoop data

/-- `!(-128.0..=127.0).contains(&new_x) || !(-128.0..=127.0).contains(&new_y)`. -/
def needsWordsQ (x y : ℚ) : Bool :=
  !(decide (-128 ≤ x ∧ x ≤ 127)) || !(decide (-128 ≤ y ∧ y ≤ 127))

/-- The re-synthesised flag word: `ARGS_ARE_XY_VALUES` forced on, then
`ARG_1_AND_2_ARE_WORDS` set or cleared according to `needsWords`. -/
def newFlagsOf (flags : Nat) (needsWords : Bool) : Nat :=
  if needsWords then (flags ||| 2) ||| 1 else (flags ||| 2) &&& 65534

/-- The current x/y offset parsed from a component's arguments (the fallback
when no positional update is supplied): the argument values when
`ARGS_ARE_XY_VALUES` is set, else zero. -/
def curOffsets (flags : Nat) (a1 a2 : Int) : ℚ × ℚ :=
  if flags.testBit 1 then ((a1 : ℚ), (a2 : ℚ)) else (0, 0)

/-- The argument bytes written for the new offsets, in the chosen width:
`(v.round() as i16).to_be_bytes()` for words, `v.round() as i8 as u8` for
bytes. -/
def newArgBytes (needsWords : Bool) (nx ny : ℚ) : List Nat :=
  if needsWords then
    toBE16 (u16ofI16 (i16cast (ratRound nx))) ++
    toBE16 (u16ofI16 (i16cast (ratRound ny)))
  else
    [u8ofI8 (i8cast (ratRound nx)), u8ofI8 (i8cast (ratRound ny))]

/-- The loop of `patch_composite_glyph_offsets` on the remaining bytes.
A truncation before a component's flags/glyph id (`pos + 4 > len`) is a
silent `break` (`ok []`); a truncation inside a component's argument bytes is
the `Malformed composite glyph` error; a transform that runs past the end of
the data would make the Rust slice expression panic, modelled as the
distinguished error below. -/
def patchCompLoop (rest : List Nat) (updates : List (ℚ × ℚ)) (idx : Nat) :
    Except String (List Nat) :=
  match rest with
  | f0 :: f1 :: g0 :: g1 :: r1 =>
    let flags := u16be f0 f1
    if flags.testBit 0 then
      match r1 with
      | a0 :: a1 :: a2 :: a3 :: r2 =>
        let cur := curOffsets flags (i16ofU16 (u16be a0 a1))
          (i16ofU16 (u16be a2 a3))
        let nxy := (updates.get? idx).getD cur
        let nw := needsWordsQ nxy.1 nxy.2
        let rec₀ := toBE16 (newFlagsOf flags nw) ++ toBE16 (u16be g0 g1) ++
          newArgBytes nw nxy.1 nxy.2
        if r2.length < transformLen flags then
          .error "panic: transform slice out of range"
        else
          let tr := r2.take (transformLen flags)
          let r3 := r2.drop (transformLen flags)
          if flags.testBit 5 then
            match patchCompLoop r3 updates (idx + 1) with
            | .error e => .error e
            | .ok tail => .ok (rec₀ ++ tr ++ tail)
          else .ok (rec₀ ++ tr ++ r3)
      | _ => .error "Malformed composite glyph"
    else
      match r1 with
      | a0 :: a1 :: r2 =>
        let cur := curOffsets flags (i8ofByte a0) (i8ofByte a1)
        let nxy := (updates.get? idx).getD cur
        let nw := needsWordsQ nxy.1 nxy.2
        let rec₀ := toBE16 (newFlagsOf flags nw) ++ toBE16 (u16be g0 g1) ++
          newArgBytes nw nxy.1 nxy.2
        if r2.length < transformLen flags then
          .error "panic: transform slice out of range"
        else
          let tr := r2.take (transformLen flags)
          let r3 := r2.drop (transformLen flags)
          if flags.testBit 5 then
            match patchCompLoop r3 updates (idx + 1) with
            | .error e => .error e
            | .ok tail => .ok (rec₀ ++ tr ++ tail)
          else .ok (rec₀ ++ tr ++ r3)
      | _ => .error "Malformed composite glyph"
  | _ => .ok []
termination_by rest.length
decreasing_by
  · simp only [List.length_cons, List.length_drop]; omega
  · simp only [List.length_cons, List.length_drop]; omega

/-- `patch_composite_glyph_offsets`: copy the 10-byte glyph header verbatim,
then re-emit every component record with re-synthesised flags and updated
offsets. -/
def patch_composite_glyph_offsets (glyphData : List Nat)
    (updates : List (ℚ × ℚ)) : Except String (List Nat) :=
  if glyphData.length < 10 then .error "Composite glyph data too short"
  else
    match patchCompLoop (glyphData.drop 10) updates 0 with
    | .error e => .error e
    | .ok out => .ok (glyphData.take 10 ++ out)

/- Well-formed component streams, for stating the patch claim. -/

/-- A component record of a composite glyph, as laid out in `glyf`. -/
structure CompRec where
  flags : Nat
  gid : Nat
  a1 : Int
  a2 : Int
  transform : List Nat
deriving DecidableEq, Repr

/-- Argument bytes of a component in its original width. -/
def encodeArgs (flags : Nat) (a1 a2 : Int) : List Nat :=
  if flags.testBit 0 then toBE16 (u16ofI16 a1) ++ toBE16 (u16ofI16 a2)
  else [u8ofI8 a1, u8ofI8 a2]

/-- Byte encoding of one component record. -/
def encodeComp (c : CompRec) : List Nat :=
  toBE16 c.flags ++ toBE16 c.gid ++ encodeArgs c.flags c.a1 c.a2 ++ c.transform

/-- A component record is well formed when its fields fit their binary
widths and the transform has exactly the length its flags declare. -/
def compWF (c : CompRec) : Prop :=
  c.flags < 65536 ∧ c.gid < 65536 ∧
  c.transform.length = transformLen c.flags ∧
  (if c.flags.testBit 0 then
    -32768 ≤ c.a1 ∧ c.a1 < 32768 ∧ -32768 ≤ c.a2 ∧ c.a2 < 32768
  else -128 ≤ c.a1 ∧ c.a1 < 128 ∧ -128 ≤ c.a2 ∧ c.a2 < 128)

instance (c : CompRec) : Decidable (compWF c) := by
  unfold compWF; infer_instance

/-- A well-formed component stream: `MORE_COMPONENTS` set on every component
but the last, clear on the last. -/
inductive CompsWF : List CompRec → Prop
  | last (c : CompRec) : compWF c → c.flags.testBit 5 = false → CompsWF [c]
  | more (c : CompRec) (rest : List CompRec) : compWF c →
      c.flags.testBit 5 = true → CompsWF rest → CompsWF (c :: rest)

/-- Byte encoding of a component stream. -/
def encodeComps (comps : List CompRec) : List Nat :=
  (comps.map encodeComp).flatten

/-- The record `patch_composite_glyph_offsets` emits for component `c` at
position `idx`. -/
def patchedComp (updates : List (ℚ × ℚ)) (idx : Nat) (c : CompRec) :
    List Nat :=
  let cur := curOffsets c.flags c.a1 c.a2
  let nxy := (updates.get? idx).getD cur
  let nw := needsWordsQ nxy.1 nxy.2
  toBE16 (newFlagsOf c.flags nw) ++ toBE16 c.gid ++
    newArgBytes nw nxy.1 nxy.2 ++ c.transform

/-- The patched component stream starting at position `idx`. -/
def patchedComps (updates : List (ℚ × ℚ)) (idx : Nat) :
    List CompRec → List Nat
  | [] => []
  | c :: rest => patchedComp updates idx c ++ patchedComps updates (idx + 1) rest

/- ── Path-language tokenizer and parser ─────────────────────────────────── -/

/-- The command letters recognised by `tokenize_svg_path`. -/
def isCmdLetter (c : Char) : Bool :=
  c == 'M' || c == 'm' || c == 'L' || c == 'l' || c == 'Q' || c == 'q' ||
  c == 'C' || c == 'c' || c == 'Z' || c == 'z'

/-- The inner number-consumption loop of `tokenize_svg_path`: consume digits
and decimal points, allow `e`/`E` (with an optional sign directly after it)
once the accumulator has at least `minE` characters (1 when the number began
with a digit or dot, 2 when it began with a sign).  Returns the accumulated
number characters and the remaining input. -/
def consumeNum (minE : Nat) : List Char → List Char → List Char × List Char
  | [], acc => (acc, [])
  | d :: rest, acc =>
    if d.isDigit || d == '.' then consumeNum minE rest (acc ++ [d])
    else if (d == 'e' || d == 'E') && decide (minE ≤ acc.length) then
      match hr : rest with
      | sg :: rest2 =>
        if sg == '+' || sg == '-' then consumeNum minE rest2 (acc ++ [d, sg])
        else consumeNum minE rest (acc ++ [d])
      | [] => (acc ++ [d], [])
    else (acc, d :: rest)
termination_by l acc => l.length
decreasing_by
  all_goals first
    | (simp only [List.length_cons]; omega)
    | (subst hr; simp only [List.length_cons]; omega)

/-- Part of the termination argument of `tokenizeLoop`: the number loop never
grows the remaining input. -/
theorem consumeNum_rest_length (minE : Nat) (l acc : List Char) :
    (consumeNum minE l acc).2.length ≤ l.length := by
  induction l, acc using consumeNum.induct minE with
  | case1 acc => simp [consumeNum]
  | case2 d rest acc h ih =>
      rw [consumeNum.eq_def]
      simp only [List.length_cons]
      rw [if_pos h]
      exact le_trans ih (by omega)
  | case3 d acc h1 h2 sg rest2 h3 ih =>
      rw [consumeNum.eq_def]
      simp only [List.length_cons]
      rw [if_neg h1, if_pos h2, if_pos h3]
      exact le_trans ih (by omega)
  | case4 d acc h1 h2 sg rest2 h3 ih =>
      rw [consumeNum.eq_def]
      simp only [List.length_cons]
      rw [if_neg h1, if_pos h2, if_neg h3]
      simp only [List.length_cons] at ih
      exact le_trans ih (by omega)
  | case5 d acc h1 h2 =>
      rw [consumeNum.eq_def]
      simp only [List.length_cons]
      rw [if_neg h1, if_pos h2]
      simp
  | case6 d rest acc h1 h2 =>
      rw [consumeNum.eq_def]
      simp only [List.length_cons]
      rw [if_neg h1, if_neg h2]
      simp

/-- The tokenizer of `tokenize_svg_path`: command letters become one-letter
tokens, numbers are accumulated by `consumeNum` (a lone sign is discarded),
whitespace, commas and unrecognised characters are skipped. -/
def tokenizeLoop (l : List Char) : List String :=
  match l with
  | [] => []
  | c :: rest =>
    if isCmdLetter c then c.toString :: tokenizeLoop rest
    else if c.isDigit || c == '.' then
      let p := consumeNum 1 rest [c]
      if p.1.isEmpty then tokenizeLoop p.2
      else String.mk p.1 :: tokenizeLoop p.2
    else if c == '-' || c == '+' then
      let p := consumeNum 2 rest [c]
      if 1 < p.1.length then String.mk p.1 :: tokenizeLoop p.2
      else tokenizeLoop p.2
    else tokenizeLoop rest
termination_by l.length
decreasing_by
  all_goals simp only [List.length_cons]
  all_goals first
    | omega
    | (have hcr := consumeNum_rest_length 1 rest [c]; omega)
    | (have hcr := consumeNum_rest_length 2 rest [c]; omega)

/-- `tokenize_svg_path`. -/
def tokenize_svg_path (path : String) : List String :=
  tokenizeLoop path.data

/-- Modelled from the spec: the numeric value accepted by Rust
`str::parse::<f32>` — optional sign, decimal digits with an optional
fractional part, and an optional signed decimal exponent — interpreted
exactly as a rational (the parse of every token this development feeds it is
exactly representable). -/
def parseF32 (s : String) : Option ℚ :=
  let cs := s.data
  let sgn : ℚ := if cs.head? = some '-' then -1 else 1
  let cs1 := if cs.head? = some '-' ∨ cs.head? = some '+' then cs.tail else cs
  let intPart := cs1.takeWhile Char.isDigit
  let cs2 := cs1.dropWhile Char.isDigit
  let fracPart := if cs2.head? = some '.' then cs2.tail.takeWhile Char.isDigit else []
  let cs3 := if cs2.head? = some '.' then cs2.tail.dropWhile Char.isDigit else cs2
  if intPart = [] ∧ fracPart = [] then none
  else
    let mant : ℚ :=
      ((intPart.foldl (fun a c => a * 10 + (c.toNat - 48)) 0 : Nat) : ℚ) +
      ((fracPart.foldl (fun a c => a * 10 + (c.toNat - 48)) 0 : Nat) : ℚ) /
        (10 : ℚ) ^ fracPart.length
    match cs3 with
    | [] => some (sgn * mant)
    | e :: t =>
      if e == 'e' || e == 'E' then
        let esgn : Int := if t.head? = some '-' then -1 else 1
        let t1 := if t.head? = some '-' ∨ t.head? = some '+' then t.tail else t
        let eds := t1.takeWhile Char.isDigit
        let t2 := t1.dropWhile Char.isDigit
        if eds = [] ∨ t2 ≠ [] then none
        else some (sgn * mant *
          (10 : ℚ) ^ (esgn * (eds.foldl (fun a c => a * 10 + (c.toNat - 48)) 0 : Nat)))
      else none

/-- The parsed path-command list (`SvgCmd`), coordinates in font space. -/
inductive SvgCmd where
  | MoveTo (x y : ℚ)
  | LineTo (x y : ℚ)
  | QuadTo (cx cy x y : ℚ)
  | CurveTo (cx1 cy1 cx2 cy2 x y : ℚ)
  | Close
deriving DecidableEq, Repr

/-- `next_f`: take the next token and parse it as a float.  (The Rust error
message also carries the offending token's text and parse error; the model
keeps a fixed prefix.) -/
def getNum : List String → Except String (ℚ × List String)
  | [] => .error "unexpected end of path"
  | s :: r =>
    match parseF32 s with
    | some q => .ok (q, r)
    | none => .error ("bad number " ++ s)

/-- Part of the termination argument of `parseTokens`. -/
theorem getNum_length {l : List String} {q : ℚ} {r : List String}
    (h : getNum l = .ok (q, r)) : r.length < l.length := by
  match l with
  | [] => simp [getNum] at h
  | s :: r0 =>
    simp only [getNum] at h
    match hp : parseF32 s with
    | some q0 => rw [hp] at h; simp at h; simp [← h.2]
    | none => rw [hp] at h; simp at h

/-- The token-folding loop of `parse_svg_path_cmds`.  For every coordinate
pair the second (Y) value read is negated, restoring font-space Y-up;
unrecognised tokens are skipped. -/
def parseTokens : List String → Except String (List SvgCmd)
  | [] => .ok []
  | t :: rest =>
    if t == "M" || t == "m" then
      match h1 : getNum rest with
      | .error e => .error e
      | .ok (x, r1) =>
        match h2 : getNum r1 with
        | .error e => .error e
        | .ok (ny, r2) =>
          match parseTokens r2 with
          | .error e => .error e
          | .ok cs => .ok (.MoveTo x (-ny) :: cs)
    else if t == "L" || t == "l" then
      match h1 : getNum rest with
      | .error e => .error e
      | .ok (x, r1) =>
        match h2 : getNum r1 with
        | .error e => .error e
        | .ok (ny, r2) =>
          match parseTokens r2 with
          | .error e => .error e
          | .ok cs => .ok (.LineTo x (-ny) :: cs)
    else if t == "Q" || t == "q" then
      match h1 : getNum rest with
      | .error e => .error e
      | .ok (cx, r1) =>
        match h2 : getNum r1 with
        | .error e => .error e
        | .ok (ncy, r2) =>
          match h3 : getNum r2 with
          | .error e => .error e
          | .ok (x, r3) =>
            match h4 : getNum r3 with
            | .error e => .error e
            | .ok (ny, r4) =>
              match parseTokens r4 with
              | .error e => .error e
              | .ok cs => .ok (.QuadTo cx (-ncy) x (-ny) :: cs)
    else if t == "C" || t == "c" then
      match h1 : getNum rest with
      | .error e => .error e
      | .ok (cx1, r1) =>
        match h2 : getNum r1 with
        | .error e => .error e
        | .ok (ncy1, r2) =>
          match h3 : getNum r2 with
          | .error e => .error e
          | .ok (cx2, r3) =>
            match h4 : getNum r3 with
            | .error e => .error e
            | .ok (ncy2, r4) =>
              match h5 : getNum r4 with
              | .error e => .error e
              | .ok (x, r5) =>
                match h6 : getNum r5 with
                | .error e => .error e
                | .ok (ny, r6) =>
                  match parseTokens r6 with
                  | .error e => .error e
                  | .ok cs =>
                    .ok (.CurveTo cx1 (-ncy1) cx2 (-ncy2) x (-ny) :: cs)
    else if t == "Z" || t == "z" then
      match parseTokens rest with
      | .error e => .error e
      | .ok cs => .ok (.Close :: cs)
    else parseTokens rest
termination_by l => l.length
decreasing_by
  all_goals simp only [List.length_cons]
  all_goals
    first
      | omega
      | (have a1 := getNum_length h1; omega)
      | (have a1 := getNum_length h1; have a2 := getNum_length h2; omega)
      | (have a1 := getNum_length h1; have a2 := getNum_length h2;
         have a3 := getNum_length h3; have a4 := getNum_length h4; omega)
      | (have a1 := getNum_length h1; have a2 := getNum_length h2;
         have a3 := getNum_length h3; have a4 := getNum_length h4;
         have a5 := getNum_length h5; have a6 := getNum_length h6; omega)

/-- `parse_svg_path_cmds`: tokenise, then fold the tokens into commands. -/
def parse_svg_path_cmds (path : String) : Except String (List SvgCmd) :=
  parseTokens (tokenize_svg_path path)

/- ── String pen (`SvgPathPen`) ──────────────────────────────────────────── -/

/-- Decimal digit character. -/
def digitChar (d : Nat) : Char := Char.ofNat (48 + d)

/-- Decimal digit string of a natural number, most significant first. -/
def natDigits (n : Nat) : List Char :=
  if n < 10 then [digitChar n]
  else natDigits (n / 10) ++ [digitChar (n % 10)]
decreasing_by omega

/-- Modelled from the spec (§4.D float formatting): Rust `Display` of an
integral `f32` value — the decimal digits, `-`-prefixed when negative, and no
decimal point.  (The source formats with the platform default representation;
for the integral values this development emits, that is exactly this
string.) -/
def fmtInt (n : Int) : String :=
  if n < 0 then String.mk ('-' :: natDigits n.natAbs)
  else String.mk (natDigits n.toNat)

/-- Pen events with integer coordinates (unscaled TrueType outlines).  The
coordinates are in font space (Y-up); the pen negates Y on output. -/
inductive PenEvent where
  | moveTo (x y : Int)
  | lineTo (x y : Int)
  | quadTo (cx cy x y : Int)
  | curveTo (cx1 cy1 cx2 cy2 x y : Int)
  | close
deriving DecidableEq, Repr

/-- The string the `SvgPathPen` `OutlinePen` impl builds: `M x -y `,
`L x -y `, `Q cx -cy x -y `, `C cx1 -cy1 cx2 -cy2 x -y `, `Z`. -/
def svgPathPenEmit : List PenEvent → String
  | [] => ""
  | .moveTo x y :: r =>
      "M" ++ fmtInt x ++ " " ++ fmtInt (-y) ++ " " ++ svgPathPenEmit r
  | .lineTo x y :: r =>
      "L" ++ fmtInt x ++ " " ++ fmtInt (-y) ++ " " ++ svgPathPenEmit r
  | .quadTo cx cy x y :: r =>
      "Q" ++ fmtInt cx ++ " " ++ fmtInt (-cy) ++ " " ++
      fmtInt x ++ " " ++ fmtInt (-y) ++ " " ++ svgPathPenEmit r
  | .curveTo cx1 cy1 cx2 cy2 x y :: r =>
      "C" ++ fmtInt cx1 ++ " " ++ fmtInt (-cy1) ++ " " ++
      fmtInt cx2 ++ " " ++ fmtInt (-cy2) ++ " " ++
      fmtInt x ++ " " ++ fmtInt (-y) ++ " " ++ svgPathPenEmit r
  | .close :: r => "Z" ++ svgPathPenEmit r

/-- The commands `parse_svg_path_cmds` recovers from a pen-emitted path:
the same coordinates, Y restored to font space by the parser's negation. -/
def penEventToCmd : PenEvent → SvgCmd
  | .moveTo x y => .MoveTo (x : ℚ) (y : ℚ)
  | .lineTo x y => .LineTo (x : ℚ) (y : ℚ)
  | .quadTo cx cy x y => .QuadTo (cx : ℚ) (cy : ℚ) (x : ℚ) (y : ℚ)
  | .curveTo cx1 cy1 cx2 cy2 x y =>
      .CurveTo (cx1 : ℚ) (cy1 : ℚ) (cx2 : ℚ) (cy2 : ℚ) (x : ℚ) (y : ℚ)
  | .close => .Close

/-- Whether a command is a cubic (`C`) command. -/
def isCurveTo : SvgCmd → Bool
  | .CurveTo _ _ _ _ _ _ => true
  | _ => false

/- ── SimpleGlyph encoder (`build_glyf_glyph_bytes`) ─────────────────────── -/

/-- The cubic-rejection message of `build_glyf_glyph_bytes` (the Rust string
literal, with its line continuation collapsed). -/
def cubicMsg : String :=
  "Cubic Bézier (C) not supported in glyf table. Use a CFF font for cubic curves."

/-- A recorded point: x, y (already rounded and cast to `i16`) and the
on-curve flag. -/
abbrev GlyfPt := Int × Int × Bool

/-- The command loop of `build_glyf_glyph_bytes`: accumulate points per
contour; `MoveTo` flushes any active contour and starts a new one, `Close`
flushes, `CurveTo` is rejected.  The trailing non-empty contour is flushed at
the end. -/
def buildGlyfLoop : List SvgCmd → List (List GlyfPt) → List GlyfPt →
    Except String (List (List GlyfPt))
  | [], contours, cur => .ok (if cur = [] then contours else contours ++ [cur])
  | cmd :: rest, contours, cur =>
    match cmd with
    | .MoveTo x y =>
        buildGlyfLoop rest (if cur = [] then contours else contours ++ [cur])
          [(i16cast (ratRound x), i16cast (ratRound y), true)]
    | .LineTo x y =>
        buildGlyfLoop rest contours
          (cur ++ [(i16cast (ratRound x), i16cast (ratRound y), true)])
    | .QuadTo cx cy x y =>
        buildGlyfLoop rest contours
          (cur ++ [(i16cast (ratRound cx), i16cast (ratRound cy), false),
                   (i16cast (ratRound x), i16cast (ratRound y), true)])
    | .CurveTo _ _ _ _ _ _ => .error cubicMsg
    | .Close =>
        buildGlyfLoop rest (if cur = [] then contours else contours ++ [cur]) []

/-- `endPtsOfContours`: after flattening, the index of each contour's last
point. -/
def endPtsOf (contours : List (List GlyfPt)) : List Nat :=
  (contours.foldl (fun (p : Nat × List Nat) c =>
    (p.1 + c.length, p.2 ++ [p.1 + c.length - 1])) (0, [])).2

/-- Big-endian `i16` bytes of the running per-axis delta (`x - prev` wraps as
`i16` before encoding). -/
def deltaBytes (xs : List Int) : List Nat :=
  (xs.foldl (fun (st : Int × List Nat) x =>
    (x, st.2 ++ toBE16 (u16ofI16 (x - st.1)))) (0, [])).2

/-- `build_glyf_glyph_bytes`: emit the TrueType SimpleGlyph record —
numberOfContours, bounding box, endPtsOfContours, zero instruction length,
one plain flag byte per point, x deltas, y deltas, all big-endian.  An empty
command list yields an empty record. -/
def build_glyf_glyph_bytes (cmds : List SvgCmd) : Except String (List Nat) :=
  match buildGlyfLoop cmds [] [] with
  | .error e => .error e
  | .ok contours =>
    if contours = [] then .ok []
    else
      let pts := contours.flatten
      let xs := pts.map (fun p => p.1)
      let ys := pts.map (fun p => p.2.1)
      let xMin := (xs.foldl min (xs.headD 0))
      let xMax := (xs.foldl max (xs.headD 0))
      let yMin := (ys.foldl min (ys.headD 0))
      let yMax := (ys.foldl max (ys.headD 0))
      .ok (toBE16 (contours.length % 2 ^ 16) ++
        toBE16 (u16ofI16 xMin) ++ toBE16 (u16ofI16 yMin) ++
        toBE16 (u16ofI16 xMax) ++ toBE16 (u16ofI16 yMax) ++
        ((endPtsOf contours).map (fun e => toBE16 (e % 2 ^ 16))).flatten ++
        toBE16 0 ++
        pts.map (fun p => if p.2.2 then 1 else 0) ++
        deltaBytes xs ++ deltaBytes ys)

/- ── hmtx extension (`extend_hmtx`) ─────────────────────────────────────── -/

/-- `extend_hmtx`: copy the existing hmtx bytes and append one 2-byte zero
LSB entry (`0i16.to_be_bytes()`) per added glyph.  (The source also computes
`_last_aw`, which is dead code; `numHMetrics` and `defaultAdvanceWidth` only
feed that dead computation.) -/
def extend_hmtx (hmtxData : List Nat) (currentNumGlyphs targetNumGlyphs : Nat)
    (numHMetrics : Nat) (defaultAdvanceWidth : Nat) : List Nat :=
  hmtxData ++
    (List.replicate (targetNumGlyphs - currentNumGlyphs) (toBE16 0)).flatten

/-- Modelled from the spec (glossary, `hmtx` format): the advance width the
format assigns to a glyph — glyphs at or beyond `numberOfHMetrics` inherit
the advance of the last full metrics entry. -/
def hmtxAdvance (hmtx : List Nat) (numH : Nat) (gid : Nat) : Nat :=
  if gid < numH then
    u16be (hmtx.getD (gid * 4) 0) (hmtx.getD (gid * 4 + 1) 0)
  else
    u16be (hmtx.getD ((numH - 1) * 4) 0) (hmtx.getD ((numH - 1) * 4 + 1) 0)

/- ── Per-path session state and the save pipeline ───────────────────────── -/

/-- The per-path slice of the `FontCache` plus the file on disk: the byte
buffer on disk, the `fonts` map entry and the `outlines` map entry for this
path.  (The cache maps are keyed by path; each operation touches only its own
path's entries, so the per-path projection is faithful.) -/
structure WorldM where
  fileBytes : List Nat
  cacheFonts : Option (List Nat)
  cacheOutlines : Option CachedOutlinesM
deriving DecidableEq, Repr

/-- The fields of a parsed font that `save_glyph_outline` reads, each
`Option`-valued because the corresponding table read can fail.  Produced by
an abstract decoder `List Nat → Option FontT` standing for
`RawFontRef::new` and the skrifa table readers. -/
structure FontT where
  headIsLong : Option Bool
  maxpNumGlyphs : Option Nat
  locaBytes : Option (List Nat)
  glyfBytes : Option (List Nat)
  hmtxBytes : Option (List Nat)
  hheaData : Option (Nat × Nat)
  hasOs2 : Bool
deriving DecidableEq, Repr

/-- Modelled from the spec: Rust `str::trim` — strip leading and trailing
whitespace (the ASCII whitespace relevant to table names). -/
def rustTrim (s : String) : String :=
  String.mk (((s.data.dropWhile Char.isWhitespace).reverse.dropWhile
    Char.isWhitespace).reverse)

/-- `SaveGlyphOutlineArgs`. -/
structure SaveArgs where
  glyph_id : Nat
  svg_path : String
  table_name : String
deriving DecidableEq, Repr

/-- `save_glyph_outline`.  `decode` stands for `RawFontRef::new` plus the
table reads; `compose` stands for the `write_fonts::FontBuilder` composition
(including the maxp update and OS/2 `xAvgCharWidth` recomputation on the
new-glyph path, signalled by its last argument).  Every error path leaves the
world unchanged; success writes the composed bytes to the file, replaces the
cached bytes and drops the cached outlines. -/
def save_glyph_outline (decode : List Nat → Option FontT)
    (compose : FontT → List Nat → List Nat → List Nat → Bool → List Nat)
    (path : String) (args : SaveArgs) (w : WorldM) :
    Except String Unit × WorldM :=
  if rustTrim args.table_name ≠ "glyf" then
    (.error "Saving outlines for this table is not yet supported. Only the glyf table can be saved.", w)
  else
    let bytes := availBytes w.cacheFonts w.fileBytes
    if bytes = [] then (.error ("Failed to read font file: " ++ path), w)
    else
      match decode bytes with
      | none => (.error "Invalid font file", w)
      | some ft =>
        match parse_svg_path_cmds args.svg_path with
        | .error e => (.error e, w)
        | .ok cmds =>
          match build_glyf_glyph_bytes cmds with
          | .error e => (.error e, w)
          | .ok newGlyphBytes =>
            match ft.headIsLong with
            | none => (.error "head table read failed", w)
            | some isLong =>
              match ft.maxpNumGlyphs with
              | none => (.error "maxp table read failed", w)
              | some numGlyphs =>
                match ft.locaBytes with
                | none => (.error "No loca table in font", w)
                | some loca =>
                  match ft.glyfBytes with
                  | none => (.error "No glyf table in font", w)
                  | some glyf =>
                    let offsets := parse_loca_offsets loca (numGlyphs + 1) isLong
                    let isNew := numGlyphs ≤ args.glyph_id
                    let target := if isNew then args.glyph_id + 1 else numGlyphs
                    if 65535 < target then
                      (.error "glyph_id exceeds maximum (65535)", w)
                    else
                      match rebuild_glyf_with_patch glyf offsets args.glyph_id
                          newGlyphBytes isLong target with
                      | .error e => (.error e, w)
                      | .ok (newGlyf, newLoca) =>
                        match ft.hheaData with
                        | none => (.error "hhea table read failed", w)
                        | some (numH, advMax) =>
                          if isNew then
                            match ft.hmtxBytes with
                            | none => (.error "No hmtx table in font", w)
                            | some hmtx =>
                              let newHmtx :=
                                extend_hmtx hmtx numGlyphs target numH advMax
                              let final := compose ft newGlyf newLoca newHmtx true
                              (.ok (), ⟨final, some final, none⟩)
                          else
                            let newHmtx := ft.hmtxBytes.getD []
                            let final := compose ft newGlyf newLoca newHmtx false
                            (.ok (), ⟨final, some final, none⟩)

/- ── Structured outline builder (`build_glyph_outline_data_recursive`) ──── -/

/-- A structured outline command with rational coordinates. -/
inductive OutlineCmdM where
  | M (x y : ℚ)
  | L (x y : ℚ)
  | Q (cx cy x y : ℚ)
  | C (cx1 cy1 cx2 cy2 x y : ℚ)
  | Z
deriving DecidableEq, Repr

/-- The abstract decoded font that the recursive outline builder walks:
which glyphs have outlines, which are composite, their component records
(glyph id, x offset, y offset), and the external per-glyph data the skrifa
calls supply (structured-pen contours, bounds, advance, LSB). -/
structure FontModel where
  glyphHasOutline : Nat → Bool
  isComposite : Nat → Bool
  components : Nat → List (Nat × ℚ × ℚ)
  simpleContours : Nat → List (List OutlineCmdM)
  simpleBounds : Nat → Option (ℚ × ℚ × ℚ × ℚ)
  advance : Nat → ℚ
  lsb : Nat → ℚ

/-- `GlyphOutlineData`: glyph id, contours, advance, LSB, bounds, composite
flag, direct component glyph ids, and component records each carrying an
optional recursively built outline. -/
inductive GOD where
  | mk (glyph_id : Nat) (contours : List (List OutlineCmdM))
       (advance_width : ℚ) (lsb : ℚ) (bounds : Option (ℚ × ℚ × ℚ × ℚ))
       (is_composite : Bool) (component_glyph_ids : List Nat)
       (components : List (Nat × ℚ × ℚ × Option GOD))

/-- The contour list of a `GOD`. -/
def godContours : GOD → List (List OutlineCmdM)
  | .mk _ contours _ _ _ _ _ _ => contours

/-- The component records of a `GOD`. -/
def godComponents : GOD → List (Nat × ℚ × ℚ × Option GOD)
  | .mk _ _ _ _ _ _ _ comps => comps

/-- `build_glyph_outline_data_recursive`: give up above depth 5; fail when
the glyph has no outline entry; composites skip drawing (their own contour
list stays empty) and recursively resolve each component at `depth + 1`. -/
def buildRec (f : FontModel) (glyph_id : Nat) (depth : Nat) : Option GOD :=
  if h : 5 < depth then none
  else if f.glyphHasOutline glyph_id = false then none
  else
    let isC := f.isComposite glyph_id
    let comps := if isC then f.components glyph_id else []
    let contours := if isC then [] else f.simpleContours glyph_id
    let comps2 := comps.map
      (fun c => (c.1, c.2.1, c.2.2, buildRec f c.1 (depth + 1)))
    some (.mk glyph_id contours (f.advance glyph_id) (f.lsb glyph_id)
      (if isC then none else f.simpleBounds glyph_id) isC
      (comps2.map (fun c => c.1)) comps2)
termination_by 6 - depth
decreasing_by omega

/-- `get_glyph_outline_data`: byte acquisition, then the recursive builder at
depth 0.  `fontOf` stands for `FontRef::new` and the table reads inside the
recursion (a decode failure makes the builder return `none`, reported as the
not-found error, exactly as in the source). -/
def get_glyph_outline_data (fontOf : List Nat → Option FontModel)
    (path : String) (cacheBytes : Option (List Nat)) (fileBytes : List Nat)
    (glyph_id : Nat) : Except String GOD :=
  let bytes := availBytes cacheBytes fileBytes
  if bytes = [] then .error ("Failed to read font file: " ++ path)
  else
    match (fontOf bytes).bind (fun fm => buildRec fm glyph_id 0) with
    | some d => .ok d
    | none => .error ("Glyph " ++ toString glyph_id ++ " not found or failed to parse")

/-- The spec's depth-bound scenario font: every glyph `g` is a composite
with the single component `g + 1` at offset (0, 0) — an unbounded composite
chain. -/
def chainFont : FontModel where
  glyphHasOutline := fun _ => true
  isComposite := fun _ => true
  components := fun g => [(g + 1, 0, 0)]
  simpleContours := fun _ => []
  simpleBounds := fun _ => none
  advance := fun _ => 0
  lsb := fun _ => 0

/-- The tree `buildRec` returns on the chain font: `chainGOD g n` is the
node for glyph `g` with `n` more resolved component levels below it; at
`n = 0` the component's outline is absent. -/
def chainGOD : Nat → Nat → GOD
  | g, 0 => .mk g [] 0 0 none true [g + 1] [(g + 1, 0, 0, none)]
  | g, n + 1 =>
      .mk g [] 0 0 none true [g + 1] [(g + 1, 0, 0, some (chainGOD (g + 1) n))]

/-- Descend `n` levels into the first component's nested outline. -/
def descendIter : Nat → Option GOD → Option GOD
  | 0, t => t
  | n + 1, t =>
    match t with
    | none => none
    | some g =>
      match (godComponents g).head? with
      | some c => descendIter n c.2.2.2
      | none => none

/- ── Name table update (`update_name_table`) ────────────────────────────── -/

/-- A `name` record as `update_name_table` reads it: the three identifying
ids, the name id, and the result of decoding its string
(`record.string(...)`, `none` when the platform/encoding decode fails). -/
structure NameRecordIn where
  platform_id : Nat
  encoding_id : Nat
  language_id : Nat
  name_id : Nat
  decoded : Option String
deriving DecidableEq, Repr

/-- A rebuilt `name` record handed to `write_fonts`. -/
structure NameRecordOut where
  platform_id : Nat
  encoding_id : Nat
  language_id : Nat
  name_id : Nat
  string : String
deriving DecidableEq, Repr

/-- A record matches the update when both `name_id` and `platform_id`
agree. -/
def nameMatches (nameId platformId : Nat) (r : NameRecordIn) : Bool :=
  r.name_id = nameId && r.platform_id = platformId

/-- The record-rewriting loop of `update_name_table`: matching records get
the new value, all others are rebuilt from their decoded string
(`unwrap_or_default` — an undecodable string becomes empty).  Returns the new
records and whether any record matched. -/
def updateNameLoop (nameId platformId : Nat) (value : String) :
    List NameRecordIn → List NameRecordOut × Bool
  | [] => ([], false)
  | r :: rest =>
    let tail := updateNameLoop nameId platformId value rest
    if nameMatches nameId platformId r then
      (⟨r.platform_id, r.encoding_id, r.language_id, r.name_id, value⟩ :: tail.1,
       true)
    else
      (⟨r.platform_id, r.encoding_id, r.language_id, r.name_id,
        r.decoded.getD ""⟩ :: tail.1, tail.2)

/-- `update_name_table`.  `decode` stands for reading and decoding the name
table from the font bytes; `encode` for the `write_fonts` rebuild of the
whole font around the new name table.  No match leaves the world unchanged
and reports the no-matching-record error. -/
def update_name_table (decode : List Nat → Option (List NameRecordIn))
    (encode : List NameRecordOut → List Nat) (path : String)
    (nameId platformId : Nat) (value : String) (w : WorldM) :
    Except String Unit × WorldM :=
  let bytes := availBytes w.cacheFonts w.fileBytes
  if bytes = [] then (.error ("Failed to read font file: " ++ path), w)
  else
    match decode bytes with
    | none => (.error "Failed to read name table", w)
    | some records =>
      let r := updateNameLoop nameId platformId value records
      if r.2 = false then
        (.error ("No name record found for name_id=" ++ toString nameId ++
          " platform_id=" ++ toString platformId), w)
      else
        let nb := encode r.1
        (.ok (), ⟨nb, some nb, none⟩)

/- ── Hinting bridge and byte-availability behaviour ─────────────────────── -/

/-- `HintingInfo`. -/
structure HintingInfo where
  is_hinted : Bool
  hint_format : Option String
deriving DecidableEq, Repr

/-- The hint-carrying tables of a decoded font: whether any of
`fpgm`/`prep`/`cvt ` is present and non-empty, and whether `CFF ` is
present. -/
structure HintFont where
  hasNonEmptyTT : Bool
  hasCFF : Bool
deriving DecidableEq, Repr

/-- `check_font_hinting`: empty bytes yield a successful un-hinted answer;
otherwise probe the hint tables of the decoded font. -/
def check_font_hinting (decode : List Nat → Option HintFont) (path : String)
    (cacheBytes : Option (List Nat)) (fileBytes : List Nat) :
    Except String HintingInfo :=
  let bytes := availBytes cacheBytes fileBytes
  if bytes = [] then .ok ⟨false, none⟩
  else
    match decode bytes with
    | none => .error "Invalid font"
    | some hf =>
      if hf.hasNonEmptyTT then .ok ⟨true, some "truetype"⟩
      else if hf.hasCFF then .ok ⟨true, some "cff"⟩
      else .ok ⟨false, none⟩

/-- `get_hinted_glyph_outlines`: byte acquisition, then the external hinted
draw (`draw_hinted_glyph_svgs`), abstracted as `draw`. -/
def get_hinted_glyph_outlines (draw : List Nat → Nat → List ℚ → Except String (List String))
    (path : String) (cacheBytes : Option (List Nat)) (fileBytes : List Nat)
    (glyph_id : Nat) (pxSizes : List ℚ) : Except String (List String) :=
  let bytes := availBytes cacheBytes fileBytes
  if bytes = [] then .error ("Failed to read font file: " ++ path)
  else draw bytes glyph_id pxSizes

/- ═══════════════════════════════ Theorems ═══════════════════════════════ -/

/- ── C1: glyf/loca rebuild invariants ───────────────────────────────────── -/

theorem pad4_len_mod (l : List Nat) : (pad4 l).length % 4 = 0 := by
  simp only [pad4, List.length_append, List.length_replicate]
  omega

theorem pad4_len_ge (l : List Nat) : l.length ≤ (pad4 l).length := by
  simp [pad4]

/-- The running invariant of the rebuild loop: glyf length stays 4-aligned,
one offset per processed glyph, every offset 4-aligned and at most the
current glyf length, and — as long as the glyf length has not wrapped a
`u32` — the offsets are non-decreasing. -/
theorem rebuildFold_inv (glyf offsets : List Nat) (currentNum glyphId : Nat)
    (newGlyph : List Nat) (n : Nat) :
    (((List.range n).foldl (rebuildStep glyf offsets currentNum glyphId newGlyph)
        ([], [])).1.length % 4 = 0) ∧
    (((List.range n).foldl (rebuildStep glyf offsets currentNum glyphId newGlyph)
        ([], [])).2.length = n) ∧
    (∀ o ∈ ((List.range n).foldl (rebuildStep glyf offsets currentNum glyphId newGlyph)
        ([], [])).2, o % 4 = 0 ∧
        o ≤ ((List.range n).foldl (rebuildStep glyf offsets currentNum glyphId newGlyph)
        ([], [])).1.length) ∧
    (((List.range n).foldl (rebuildStep glyf offsets currentNum glyphId newGlyph)
        ([], [])).1.length < 2 ^ 32 →
      List.Chain' (· ≤ ·)
        (((List.range n).foldl (rebuildStep glyf offsets currentNum glyphId newGlyph)
        ([], [])).2)) := by
  induction n with
  | zero => simp
  | succ n ih =>
    obtain ⟨ihMod, ihLen, ihMem, ihChain⟩ := ih
    rw [List.range_succ, List.foldl_append, List.foldl_cons, List.foldl_nil]
    set r := (List.range n).foldl (rebuildStep glyf offsets currentNum glyphId newGlyph)
      ([], []) with hr
    have hgrow : r.1.length ≤ (rebuildStep glyf offsets currentNum glyphId newGlyph r n).1.length := by
      simp only [rebuildStep]
      calc r.1.length ≤ (r.1 ++ glyphBody glyf offsets currentNum glyphId newGlyph n).length := by
            simp
        _ ≤ _ := pad4_len_ge _
    refine ⟨pad4_len_mod _, ?_, ?_, ?_⟩
    · simp [rebuildStep, ihLen]
    · intro o ho
      simp only [rebuildStep, List.mem_append, List.mem_singleton] at ho
      rcases ho with ho | ho
      · obtain ⟨h4, hle⟩ := ihMem o ho
        exact ⟨h4, le_trans hle hgrow⟩
      · subst ho
        constructor
        · have : (2 ^ 32 : Nat) % 4 = 0 := by norm_num
          omega
        · exact le_trans (Nat.le_trans (Nat.mod_le _ _) le_rfl) hgrow
    · intro hlt
      have hlt' : r.1.length < 2 ^ 32 := lt_of_le_of_lt hgrow hlt
      simp only [rebuildStep]
      rw [List.chain'_append]
      refine ⟨ihChain hlt', List.chain'_singleton _, ?_⟩
      intro x hx y hy
      simp only [List.head?_cons, Option.mem_def, Option.some.injEq] at hy
      subst hy
      have hxmem : x ∈ r.2 := List.mem_of_mem_getLast? hx
      obtain ⟨_, hle⟩ := ihMem x hxmem
      rw [Nat.mod_eq_of_lt hlt']
      exact hle

/-- C1.  After any glyf/loca rebuild targeting `targetNumGlyphs` glyphs (the
rebuild invoked by both the composite-offset edit and the glyph save), and
provided the rebuilt glyf fits a `u32` (no length wrap), the new loca has
`targetNumGlyphs + 1` entries, every entry is a multiple of 4, the entries
are non-decreasing, and the final sentinel entry equals the length of the new
glyf table. -/
theorem rebuild_loca_invariants (glyf offsets : List Nat) (glyphId : Nat)
    (newGlyph : List Nat) (target : Nat)
    (hfit : (rebuildGlyfOffsets glyf offsets glyphId newGlyph target).1.length < 2 ^ 32) :
    ((rebuildGlyfOffsets glyf offsets glyphId newGlyph target).2.length = target + 1) ∧
    (∀ o ∈ (rebuildGlyfOffsets glyf offsets glyphId newGlyph target).2, o % 4 = 0) ∧
    List.Chain' (· ≤ ·) (rebuildGlyfOffsets glyf offsets glyphId newGlyph target).2 ∧
    (rebuildGlyfOffsets glyf offsets glyphId newGlyph target).2.getLast? =
      some (rebuildGlyfOffsets glyf offsets glyphId newGlyph target).1.length := by
  obtain ⟨hMod, hLen, hMem, hChain⟩ :=
    rebuildFold_inv glyf offsets (offsets.length - 1) glyphId newGlyph target
  have hfit' : ((List.range target).foldl
      (rebuildStep glyf offsets (offsets.length - 1) glyphId newGlyph)
      ([], [])).1.length < 2 ^ 32 := by
    simpa [rebuildGlyfOffsets] using hfit
  constructor
  · simp [rebuildGlyfOffsets, hLen]
  constructor
  · intro o ho
    simp only [rebuildGlyfOffsets, List.mem_append, List.mem_singleton] at ho
    rcases ho with ho | ho
    · exact (hMem o ho).1
    · subst ho
      have : (2 ^ 32 : Nat) % 4 = 0 := by norm_num
      omega
  constructor
  · simp only [rebuildGlyfOffsets]
    rw [List.chain'_append]
    refine ⟨hChain hfit', List.chain'_singleton _, ?_⟩
    intro x hx y hy
    simp only [List.head?_cons, Option.mem_def, Option.some.injEq] at hy
    subst hy
    have hxmem := List.mem_of_mem_getLast? hx
    rw [Nat.mod_eq_of_lt hfit']
    exact (hMem x hxmem).2
  · simp only [rebuildGlyfOffsets]
    rw [List.getLast?_concat]
    rw [Nat.mod_eq_of_lt hfit']

/-- C1 witness: the invariants hold on a concrete rebuild (a 2-glyph font,
replacing glyph 0 with five bytes and growing to three glyphs). -/
theorem rebuild_loca_invariants_witness :
    ((rebuildGlyfOffsets [1, 2, 3, 4] [0, 4, 4] 0 [9, 9, 9, 9, 9] 3).1.length < 2 ^ 32) ∧
    ((rebuildGlyfOffsets [1, 2, 3, 4] [0, 4, 4] 0 [9, 9, 9, 9, 9] 3).2.length = 3 + 1) ∧
    (∀ o ∈ (rebuildGlyfOffsets [1, 2, 3, 4] [0, 4, 4] 0 [9, 9, 9, 9, 9] 3).2, o % 4 = 0) ∧
    List.Chain' (· ≤ ·) (rebuildGlyfOffsets [1, 2, 3, 4] [0, 4, 4] 0 [9, 9, 9, 9, 9] 3).2 ∧
    (rebuildGlyfOffsets [1, 2, 3, 4] [0, 4, 4] 0 [9, 9, 9, 9, 9] 3).2.getLast? =
      some (rebuildGlyfOffsets [1, 2, 3, 4] [0, 4, 4] 0 [9, 9, 9, 9, 9] 3).1.length := by
  have h := rebuild_loca_invariants [1, 2, 3, 4] [0, 4, 4] 0 [9, 9, 9, 9, 9] 3 (by decide)
  exact ⟨by decide, h.1, h.2.1, h.2.2.1, h.2.2.2⟩

/- ── C2: binary outline header and paging ───────────────────────────────── -/

/-- C2.  With font bytes available (and the external reads succeeding, maxp
giving `n` glyphs), `getGlyphOutlinesBinary` never errors: it memoises
`⟨outs, upem, n⟩` and serves the page whose header is `totalGlyphs = n`
(the maxp count, not the batch size) as LE u32, then the batch count as LE
u32, then `unitsPerEm` as LE u16; the batch is the saturating slice
`outlines[min(offset,n') .. min(offset+limit,n')]` of the memoised outline
list, and an out-of-range offset yields an empty batch.  A memoised entry is
served the same way without touching the bytes. -/
theorem outlines_binary_header_and_paging (path : String)
    (cacheBytes : Option (List Nat)) (fileBytes : List Nat)
    (outs : List GlyphOutlineB) (upem n offset limit : Nat)
    (hbytes : availBytes cacheBytes fileBytes ≠ []) :
    (get_glyph_outlines_binary none path cacheBytes fileBytes (.ok outs) true
        (some upem) (some n) offset limit =
      .ok (encode_glyph_outlines_binary
        (servePage ⟨outs, upem, n⟩ offset limit) n upem, ⟨outs, upem, n⟩)) ∧
    (encode_glyph_outlines_binary (servePage ⟨outs, upem, n⟩ offset limit) n upem =
      toLE32 n ++
      toLE32 ((servePage ⟨outs, upem, n⟩ offset limit).length % 2 ^ 32) ++
      toLE16 upem ++
      ((servePage ⟨outs, upem, n⟩ offset limit).map encodeGlyphRec).flatten) ∧
    (servePage ⟨outs, upem, n⟩ offset limit =
      (outs.drop (min offset outs.length)).take
        (min (offset + limit) outs.length - min offset outs.length)) ∧
    (outs.length ≤ offset → servePage ⟨outs, upem, n⟩ offset limit = []) ∧
    (∀ c : CachedOutlinesM,
      get_glyph_outlines_binary (some c) path cacheBytes fileBytes (.ok outs)
          true (some upem) (some n) offset limit =
        .ok (encode_glyph_outlines_binary (servePage c offset limit)
          c.num_glyphs c.units_per_em, c)) := by
  refine ⟨?_, rfl, rfl, ?_, fun c => rfl⟩
  · simp [get_glyph_outlines_binary, if_neg hbytes]
  · intro hoff
    simp only [servePage]
    have h1 : min offset outs.length = outs.length := by omega
    have h2 : min (offset + limit) outs.length = outs.length := by omega
    simp [h1, h2]

/-- C2 witness: a one-glyph outline set served with the out-of-range request
`(offset, limit) = (5, 2)`. -/
theorem outlines_binary_header_and_paging_witness :
    (get_glyph_outlines_binary none "f.ttf" (some [0, 1]) []
        (.ok [⟨3, 0, none, [], []⟩]) true (some 1000) (some 7) 5 2 =
      .ok (encode_glyph_outlines_binary
        (servePage ⟨[⟨3, 0, none, [], []⟩], 1000, 7⟩ 5 2) 7 1000,
        ⟨[⟨3, 0, none, [], []⟩], 1000, 7⟩)) ∧
    ([⟨3, 0, none, [], []⟩] : List GlyphOutlineB).length ≤ 5 ∧
    servePage ⟨[⟨3, 0, none, [], []⟩], 1000, 7⟩ 5 2 = [] := by
  have h := outlines_binary_header_and_paging "f.ttf" (some [0, 1]) []
    [⟨3, 0, none, [], []⟩] 1000 7 5 2 (by decide)
  exact ⟨h.1, by decide, h.2.2.2.1 (by decide)⟩

/- ── C3: composite patch structure ──────────────────────────────────────── -/

theorem u16be_split (f : Nat) (h : f < 65536) :
    u16be (f / 256 % 256) (f % 256) = f := by
  simp only [u16be]; omega

theorem u16ofI16_lt (v : Int) : u16ofI16 v < 65536 := by
  simp only [u16ofI16]; omega

theorem i16_round (v : Int) (h1 : -32768 ≤ v) (h2 : v < 32768) :
    i16ofU16 (u16ofI16 v) = v := by
  simp only [i16ofU16, u16ofI16]; omega

theorem i8_round (v : Int) (h1 : -128 ≤ v) (h2 : v < 128) :
    i8ofByte (u8ofI8 v) = v := by
  simp only [i8ofByte, u8ofI8]; omega

set_option maxHeartbeats 4000000 in
/-- One step of the patch loop: a well-formed component record followed by
any suffix is consumed exactly, re-emitting `patchedComp` and continuing with
the suffix when `MORE_COMPONENTS` is set, else terminating and copying the
suffix verbatim. -/
theorem patchCompLoop_cons (c : CompRec) (S : List Nat)
    (updates : List (ℚ × ℚ)) (idx : Nat) (hc : compWF c) :
    patchCompLoop (encodeComp c ++ S) updates idx =
      if c.flags.testBit 5 then
        match patchCompLoop S updates (idx + 1) with
        | .error e => .error e
        | .ok tail => .ok (patchedComp updates idx c ++ tail)
      else .ok (patchedComp updates idx c ++ S) := by
  obtain ⟨hf, hg, ht, hargs⟩ := hc
  have hfe : u16be (c.flags / 256 % 256) (c.flags % 256) = c.flags :=
    u16be_split c.flags hf
  have hge : u16be (c.gid / 256 % 256) (c.gid % 256) = c.gid :=
    u16be_split c.gid hg
  have hlen : ¬ ((c.transform ++ S).length < transformLen c.flags) := by
    rw [List.length_append, ht]; omega
  by_cases h0 : c.flags.testBit 0
  · rw [if_pos h0] at hargs
    obtain ⟨ha1, ha1', ha2, ha2'⟩ := hargs
    have he1 : u16be (u16ofI16 c.a1 / 256 % 256) (u16ofI16 c.a1 % 256) =
      u16ofI16 c.a1 := u16be_split _ (u16ofI16_lt _)
    have he2 : u16be (u16ofI16 c.a2 / 256 % 256) (u16ofI16 c.a2 % 256) =
      u16ofI16 c.a2 := u16be_split _ (u16ofI16_lt _)
    simp only [encodeComp, encodeArgs, if_pos h0, toBE16, List.cons_append,
      List.nil_append, List.append_assoc]
    rw [patchCompLoop.eq_def]
    simp only [hfe, hge, he1, he2, if_pos h0,
      i16_round c.a1 ha1 ha1', i16_round c.a2 ha2 ha2', if_neg hlen,
      List.take_left' ht, List.drop_left' ht, patchedComp,
      List.append_assoc]
  · rw [if_neg h0] at hargs
    obtain ⟨ha1, ha1', ha2, ha2'⟩ := hargs
    simp only [encodeComp, encodeArgs, if_neg h0, toBE16, List.cons_append,
      List.nil_append, List.append_assoc]
    rw [patchCompLoop.eq_def]
    simp only [hfe, hge, if_neg h0,
      i8_round c.a1 (by omega) (by omega), i8_round c.a2 (by omega) (by omega),
      if_neg hlen, List.take_left' ht, List.drop_left' ht, patchedComp,
      List.append_assoc]

/-- The patch loop maps a well-formed component stream followed by trailing
bytes to the patched stream followed by the same trailing bytes. -/
theorem patchCompLoop_encodeComps (updates : List (ℚ × ℚ))
    (comps : List CompRec) (trailing : List Nat) (idx : Nat)
    (hwf : CompsWF comps) :
    patchCompLoop (encodeComps comps ++ trailing) updates idx =
      .ok (patchedComps updates idx comps ++ trailing) := by
  induction hwf generalizing idx with
  | last c hc h5 =>
      have := patchCompLoop_cons c trailing updates idx hc
      rw [if_neg (by simp [h5])] at this
      simpa [encodeComps, patchedComps] using this
  | more c rest hc h5 hwfRest ih =>
      have hstep := patchCompLoop_cons c (encodeComps rest ++ trailing)
        updates idx hc
      rw [if_pos h5] at hstep
      rw [ih (idx + 1)] at hstep
      simp only [encodeComps, patchedComps, List.map_cons, List.flatten_cons,
        List.append_assoc] at hstep ⊢
      simpa [encodeComps, List.append_assoc] using hstep

/-- C3.  For every composite glyph record (10-byte header, well-formed
component stream, arbitrary trailing instruction bytes) and every positional
update list, the patch emits the header verbatim and, per component, the
re-synthesised flag word, the original glyph id bytes, the rounded offsets in
the chosen width, and the original transform bytes, then the trailing bytes
verbatim; the re-synthesised flags always have `ARGS_ARE_XY_VALUES` (bit 1)
set and have `ARG_1_AND_2_ARE_WORDS` (bit 0) set exactly when either new
offset falls outside `[-128, 127]`. -/
theorem patch_composite_structure (hdr : List Nat) (comps : List CompRec)
    (trailing : List Nat) (updates : List (ℚ × ℚ))
    (hhdr : hdr.length = 10) (hwf : CompsWF comps) :
    (patch_composite_glyph_offsets (hdr ++ encodeComps comps ++ trailing)
        updates = .ok (hdr ++ patchedComps updates 0 comps ++ trailing)) ∧
    (∀ flags : Nat, ∀ nw : Bool, (newFlagsOf flags nw).testBit 1 = true) ∧
    (∀ flags : Nat, ∀ nw : Bool, (newFlagsOf flags nw).testBit 0 = nw) ∧
    (∀ x y : ℚ, needsWordsQ x y = true ↔
      ¬ (-128 ≤ x ∧ x ≤ 127) ∨ ¬ (-128 ≤ y ∧ y ≤ 127)) := by
  refine ⟨?_, ?_, ?_, ?_⟩
  · have hlen : ¬ ((hdr ++ (encodeComps comps ++ trailing)).length < 10) := by
      simp [hhdr]
    simp only [patch_composite_glyph_offsets, List.append_assoc]
    rw [if_neg hlen, List.drop_left' hhdr, List.take_left' hhdr,
      patchCompLoop_encodeComps updates comps trailing 0 hwf]
  · intro flags nw
    have h2 : Nat.testBit 2 1 = true := by decide
    have h1 : Nat.testBit 1 1 = false := by decide
    have h65534 : Nat.testBit 65534 1 = true := by decide
    cases nw <;>
      simp [newFlagsOf, Nat.testBit_lor, Nat.testBit_land, h2, h1, h65534]
  · intro flags nw
    have h2 : Nat.testBit 2 0 = false := by decide
    have h1 : Nat.testBit 1 0 = true := by decide
    have h65534 : Nat.testBit 65534 0 = false := by decide
    cases nw <;>
      simp [newFlagsOf, Nat.testBit_lor, Nat.testBit_land, h2, h1, h65534]
  · intro x y
    simp only [needsWordsQ, Bool.or_eq_true, Bool.not_eq_true',
      decide_eq_false_iff_not]

/-- C3 witness: patching a single word-argument component (flags `0x0003`,
glyph id 10, offsets (12, −7), no transform) with the update (200, −300). -/
theorem patch_composite_structure_witness :
    (patch_composite_glyph_offsets
        ([0, 0, 0, 0, 0, 0, 0, 0, 0, 0] ++
          encodeComps [⟨3, 10, 12, -7, []⟩] ++ [1, 2, 3]) [(200, -300)] =
      .ok ([0, 0, 0, 0, 0, 0, 0, 0, 0, 0] ++
        patchedComps [(200, -300)] 0 [⟨3, 10, 12, -7, []⟩] ++ [1, 2, 3])) ∧
    ((newFlagsOf 3 (needsWordsQ 200 (-300))).testBit 1 = true) ∧
    ((newFlagsOf 3 (needsWordsQ 200 (-300))).testBit 0 = needsWordsQ 200 (-300)) ∧
    (needsWordsQ 200 (-300) = true) := by
  have h := patch_composite_structure [0, 0, 0, 0, 0, 0, 0, 0, 0, 0]
    [⟨3, 10, 12, -7, []⟩] [1, 2, 3] [(200, -300)] (by decide)
    (CompsWF.last _ (by decide) (by decide))
  exact ⟨h.1, h.2.1 3 _, h.2.2.1 3 _, (h.2.2.2 200 (-300)).2 (by norm_num)⟩

/- ── C8: truncated composite component streams ──────────────────────────── -/

theorem parseCompLoop_none {rest : List Nat} (h : parseCompStep rest = none) :
    parseCompLoop rest = [] := by
  rw [parseCompLoop.eq_def]
  split
  · rfl
  · rename_i c m r3 heq
    rw [h] at heq
    cases heq

theorem parseCompLoop_some {rest : List Nat} {c : Nat × ℚ × ℚ} {m : Bool}
    {r3 : List Nat} (h : parseCompStep rest = some (c, m, r3)) :
    parseCompLoop rest = c :: (if m then parseCompLoop r3 else []) := by
  rw [parseCompLoop.eq_def]
  split
  · rename_i heq
    rw [h] at heq
    cases heq
  · rename_i c' m' r3' heq
    rw [h] at heq
    injection heq with heq'
    obtain ⟨h1, h2, h3⟩ : c' = c ∧ m' = m ∧ r3' = r3 := by
      refine ⟨congrArg Prod.fst heq'.symm, ?_, ?_⟩
      · exact (congrArg (fun p => p.2.1) heq').symm
      · exact (congrArg (fun p => p.2.2) heq').symm
    subst h1; subst h2; subst h3
    rfl

/-- C8 counterexample.  A component stream truncated mid-component (one
complete component with `MORE_COMPONENTS` set — flags `0x0022`, glyph id 5,
byte offsets (1, 2) — followed by only two stray bytes of the next
component) does NOT fail: `parse_composite_components` is total and returns
the partial result `[(5, 1, 2)]`, with no error of any kind. -/
theorem composite_parse_truncated_counterexample :
    parse_composite_components [0, 34, 0, 5, 1, 2, 0, 0] =
      [(5, ((1 : ℚ), (2 : ℚ)))] := by
  have hstep : parseCompStep [0, 34, 0, 5, 1, 2, 0, 0] =
      some ((5, ((1 : ℚ), (2 : ℚ))), true, [0, 0]) := by decide
  have hstep2 : parseCompStep [0, 0] = none := rfl
  rw [parse_composite_components, parseCompLoop_some hstep, if_pos rfl,
    parseCompLoop_none hstep2]

/-- C8 amended.  Truncation behaviour of the composite codec: a stream whose
bytes end inside a component's argument bytes (after a complete
flags + glyph-id prefix) makes `patch_composite_glyph_offsets` fail with the
malformed-composite error, while `parse_composite_components` never fails —
at the same truncation it stops and returns the components parsed so far
(none, when the first component is truncated). -/
theorem composite_truncation_behavior (hdr : List Nat) (f0 f1 g0 g1 : Nat)
    (r1 : List Nat) (updates : List (ℚ × ℚ)) (hhdr : hdr.length = 10)
    (hcond : if (u16be f0 f1).testBit 0 then r1.length < 4 else r1.length < 2) :
    (patch_composite_glyph_offsets (hdr ++ (f0 :: f1 :: g0 :: g1 :: r1))
        updates = .error "Malformed composite glyph") ∧
    parseCompLoop (f0 :: f1 :: g0 :: g1 :: r1) = [] := by
  have hlen : ¬ ((hdr ++ (f0 :: f1 :: g0 :: g1 :: r1)).length < 10) := by
    simp [hhdr]
  constructor
  · simp only [patch_composite_glyph_offsets]
    rw [if_neg hlen, List.drop_left' hhdr, patchCompLoop.eq_def]
    by_cases h0 : (u16be f0 f1).testBit 0
    · rw [if_pos h0] at hcond
      simp only [if_pos h0]
      match r1, hcond with
      | [], _ => rfl
      | [a], _ => rfl
      | [a, b], _ => rfl
      | [a, b, c], _ => rfl
    · rw [if_neg h0] at hcond
      simp only [if_neg h0]
      match r1, hcond with
      | [], _ => rfl
      | [a], _ => rfl
  · refine parseCompLoop_none ?_
    simp only [parseCompStep]
    by_cases h0 : (u16be f0 f1).testBit 0
    · rw [if_pos h0] at hcond
      simp only [if_pos h0]
      match r1, hcond with
      | [], _ => rfl
      | [a], _ => rfl
      | [a, b], _ => rfl
      | [a, b, c], _ => rfl
    · rw [if_neg h0] at hcond
      simp only [if_neg h0]
      match r1, hcond with
      | [], _ => rfl
      | [a], _ => rfl

/-- C8 amended witness: a word-argument component (flags `0x0001`) whose
argument bytes are cut off after one byte. -/
theorem composite_truncation_behavior_witness :
    (patch_composite_glyph_offsets
        ([0, 0, 0, 0, 0, 0, 0, 0, 0, 0] ++ (0 :: 1 :: 0 :: 5 :: [7])) [] =
      .error "Malformed composite glyph") ∧
    parseCompLoop (0 :: 1 :: 0 :: 5 :: [7]) = [] := by
  exact composite_truncation_behavior [0, 0, 0, 0, 0, 0, 0, 0, 0, 0]
    0 1 0 5 [7] [] (by decide) (by decide)

/- ── C4: pen emission / parser round trip (Y-flip involution) ───────────── -/

theorem digitChar_isDigit (d : Nat) (h : d < 10) :
    (digitChar d).isDigit = true := by
  interval_cases d <;> decide

theorem digitChar_toNat (d : Nat) (h : d < 10) :
    (digitChar d).toNat = 48 + d := by
  interval_cases d <;> decide

theorem natDigits_ne_nil (n : Nat) : natDigits n ≠ [] := by
  rw [natDigits.eq_def]
  split <;> simp

theorem natDigits_digits (n : Nat) : ∀ c ∈ natDigits n, c.isDigit = true := by
  induction n using Nat.strong_induction_on with
  | _ n ih =>
    rw [natDigits.eq_def]
    split
    · rename_i h
      intro c hc
      simp only [List.mem_singleton] at hc
      subst hc
      exact digitChar_isDigit n h
    · rename_i h
      intro c hc
      simp only [List.mem_append, List.mem_singleton] at hc
      rcases hc with hc | hc
      · exact ih (n / 10) (by omega) c hc
      · subst hc
        exact digitChar_isDigit _ (Nat.mod_lt _ (by omega))

theorem natDigits_fold (n : Nat) (acc : Nat) :
    (natDigits n).foldl (fun a c => a * 10 + (c.toNat - 48)) acc =
      acc * 10 ^ (natDigits n).length + n := by
  induction n using Nat.strong_induction_on generalizing acc with
  | _ n ih =>
    rw [natDigits.eq_def]
    split
    · rename_i h
      simp [digitChar_toNat n h]
    · rename_i h
      rw [List.foldl_append, ih (n / 10) (by omega) acc]
      simp only [List.foldl_cons, List.foldl_nil,
        digitChar_toNat (n % 10) (by omega), List.length_append,
        List.length_singleton, Nat.add_sub_cancel_left]
      rw [pow_succ, ← mul_assoc]
      have hdm := Nat.div_add_mod n 10
      generalize 10 ^ (natDigits (n / 10)).length = K
      generalize acc * K = M
      omega

theorem parseF32_digit_list (c0 : Char) (ds : List Char)
    (hds : ∀ c ∈ c0 :: ds, c.isDigit = true) :
    parseF32 (String.mk (c0 :: ds)) =
      some (((c0 :: ds).foldl (fun a c => a * 10 + (c.toNat - 48)) 0 : Nat) : ℚ) := by
  have h0 : c0.isDigit = true := hds c0 (by simp)
  have hcd : c0 ≠ '-' := by rintro rfl; simp at h0
  have hcp : c0 ≠ '+' := by rintro rfl; simp at h0
  have c1 : (((c0 :: ds).head? = some '-') = False) := by simp [hcd]
  have c2 : (((c0 :: ds).head? = some '+') = False) := by simp [hcp]
  have htw : (c0 :: ds).takeWhile Char.isDigit = c0 :: ds :=
    List.takeWhile_eq_self_iff.mpr hds
  have hdw : (c0 :: ds).dropWhile Char.isDigit = [] :=
    List.dropWhile_eq_nil_iff.mpr (by intro c hc; exact hds c hc)
  simp only [parseF32, c1, c2, if_false, or_self, htw, hdw, List.head?_nil,
    reduceCtorEq, ite_false, List.cons_ne_nil, false_and, List.foldl_nil]
  norm_num

theorem parseF32_neg_digit_list (c0 : Char) (ds : List Char)
    (hds : ∀ c ∈ c0 :: ds, c.isDigit = true) :
    parseF32 (String.mk ('-' :: c0 :: ds)) =
      some (-(((c0 :: ds).foldl (fun a c => a * 10 + (c.toNat - 48)) 0 : Nat) : ℚ)) := by
  have c1 : ((('-' : Char) :: c0 :: ds).head? = some '-') = True := by simp
  have htw : (c0 :: ds).takeWhile Char.isDigit = c0 :: ds :=
    List.takeWhile_eq_self_iff.mpr hds
  have hdw : (c0 :: ds).dropWhile Char.isDigit = [] :=
    List.dropWhile_eq_nil_iff.mpr (by intro c hc; exact hds c hc)
  simp only [parseF32, c1, if_true, true_or, List.tail_cons, htw, hdw,
    List.head?_nil, reduceCtorEq, ite_false, List.cons_ne_nil, false_and,
    if_false, List.foldl_nil]
  norm_num

theorem parseF32_fmtInt (n : Int) : parseF32 (fmtInt n) = some (n : ℚ) := by
  by_cases hn : n < 0
  · have habs : ((n.natAbs : ℚ)) = -(n : ℚ) := by
      push_cast [Int.cast_natAbs]
      rw [abs_of_neg (by exact_mod_cast hn)]
    obtain ⟨c0, ds, hds⟩ : ∃ c0 ds, natDigits n.natAbs = c0 :: ds := by
      rcases h : natDigits n.natAbs with _ | ⟨c0, ds⟩
      · exact absurd h (natDigits_ne_nil _)
      · exact ⟨c0, ds, rfl⟩
    have hdigits : ∀ c ∈ c0 :: ds, c.isDigit = true := by
      rw [← hds]; exact natDigits_digits _
    have hfold := natDigits_fold n.natAbs 0
    rw [hds] at hfold
    have hfmt : fmtInt n = String.mk ('-' :: c0 :: ds) := by
      simp [fmtInt, if_pos hn, hds]
    rw [hfmt, parseF32_neg_digit_list c0 ds hdigits, hfold]
    simp only [zero_mul, zero_add, Option.some.injEq]
    rw [habs]
    ring
  · have h0 : fmtInt n = String.mk (natDigits n.toNat) := by
      simp [fmtInt, hn]
    obtain ⟨c0, ds, hds⟩ : ∃ c0 ds, natDigits n.toNat = c0 :: ds := by
      rcases h : natDigits n.toNat with _ | ⟨c0, ds⟩
      · exact absurd h (natDigits_ne_nil _)
      · exact ⟨c0, ds, rfl⟩
    have hdigits : ∀ c ∈ c0 :: ds, c.isDigit = true := by
      rw [← hds]; exact natDigits_digits _
    have hfold := natDigits_fold n.toNat 0
    rw [hds] at hfold
    rw [h0, hds, parseF32_digit_list c0 ds hdigits, hfold]
    simp only [zero_mul, zero_add, Option.some.injEq]
    exact_mod_cast Int.toNat_of_nonneg (by omega)

theorem consumeNum_digits (minE : Nat) (ds : List Char)
    (hds : ∀ c ∈ ds, c.isDigit = true) (rest : List Char) (acc : List Char) :
    consumeNum minE (ds ++ ' ' :: rest) acc = (acc ++ ds, ' ' :: rest) := by
  induction ds generalizing acc with
  | nil =>
    simp only [List.nil_append, List.append_nil]
    rw [consumeNum.eq_def]
    simp only [show ((' ' : Char).isDigit || (' ' == '.')) = false from by decide,
      show ((' ' == 'e') || (' ' == 'E')) = false from by decide,
      Bool.false_and, Bool.false_eq_true, if_false]
  | cons d ds ih =>
    have hd : d.isDigit = true := hds d (by simp)
    rw [List.cons_append, consumeNum.eq_def]
    simp only [hd, Bool.true_or, if_true]
    rw [ih (fun c hc => hds c (by simp [hc])) (acc ++ [d])]
    simp

theorem tokenizeLoop_space (rest : List Char) :
    tokenizeLoop (' ' :: rest) = tokenizeLoop rest := by
  rw [tokenizeLoop.eq_def]
  simp only [show isCmdLetter ' ' = false from by decide,
    show ((' ' : Char).isDigit || (' ' == '.')) = false from by decide,
    show ((' ' == '-') || (' ' == '+')) = false from by decide,
    Bool.false_eq_true, if_false]

theorem tokenizeLoop_letter (c : Char) (hc : isCmdLetter c = true)
    (rest : List Char) :
    tokenizeLoop (c :: rest) = c.toString :: tokenizeLoop rest := by
  rw [tokenizeLoop.eq_def]
  simp only [hc, if_true]

theorem tokenizeLoop_fmtInt (n : Int) (rest : List Char) :
    tokenizeLoop ((fmtInt n).data ++ ' ' :: rest) =
      fmtInt n :: tokenizeLoop rest := by
  by_cases hn : n < 0
  · obtain ⟨c0, ds, hds⟩ : ∃ c0 ds, natDigits n.natAbs = c0 :: ds := by
      rcases h : natDigits n.natAbs with _ | ⟨c0, ds⟩
      · exact absurd h (natDigits_ne_nil _)
      · exact ⟨c0, ds, rfl⟩
    have hdigits : ∀ c ∈ c0 :: ds, c.isDigit = true := by
      rw [← hds]; exact natDigits_digits _
    have hfmt : fmtInt n = String.mk ('-' :: c0 :: ds) := by
      simp [fmtInt, if_pos hn, hds]
    rw [hfmt]
    show tokenizeLoop ('-' :: ((c0 :: ds) ++ ' ' :: rest)) = _
    rw [tokenizeLoop.eq_def]
    simp only [show isCmdLetter '-' = false from by decide,
      show (('-' : Char).isDigit || ('-' == '.')) = false from by decide,
      show (('-' == '-') || ('-' == '+')) = true from by decide,
      Bool.false_eq_true, if_false, if_true]
    rw [consumeNum_digits 2 (c0 :: ds) hdigits rest ['-']]
    simp only [List.singleton_append, List.length_cons]
    rw [if_pos (by omega), tokenizeLoop_space]
  · obtain ⟨c0, ds, hds⟩ : ∃ c0 ds, natDigits n.toNat = c0 :: ds := by
      rcases h : natDigits n.toNat with _ | ⟨c0, ds⟩
      · exact absurd h (natDigits_ne_nil _)
      · exact ⟨c0, ds, rfl⟩
    have hdigits : ∀ c ∈ c0 :: ds, c.isDigit = true := by
      rw [← hds]; exact natDigits_digits _
    have h0 : c0.isDigit = true := hdigits c0 (by simp)
    have hfmt : fmtInt n = String.mk (c0 :: ds) := by
      simp [fmtInt, hn, hds]
    have hcmd : isCmdLetter c0 = false := by
      simp only [isCmdLetter]
      by_contra hcon
      simp only [Bool.not_eq_false, Bool.or_eq_true, beq_iff_eq] at hcon
      rcases hcon with ((((((((h | h) | h) | h) | h) | h) | h) | h) | h) | h <;>
        (subst h; exact absurd h0 (by decide))
    rw [hfmt]
    show tokenizeLoop ((c0 :: ds) ++ ' ' :: rest) = _
    rw [List.cons_append, tokenizeLoop.eq_def]
    simp only [hcmd, h0, Bool.true_or, if_true, Bool.false_eq_true, if_false]
    rw [consumeNum_digits 1 ds (fun c hc => hdigits c (by simp [hc])) rest [c0]]
    simp only [List.singleton_append, List.isEmpty_cons, Bool.false_eq_true,
      if_false]
    rw [tokenizeLoop_space]

theorem getNum_fmtInt (n : Int) (l : List String) :
    getNum (fmtInt n :: l) = .ok ((n : ℚ), l) := by
  simp [getNum, parseF32_fmtInt]

theorem parseTokens_M (x ny : Int) (l : List String) :
    parseTokens ("M" :: fmtInt x :: fmtInt ny :: l) =
      match parseTokens l with
      | .error e => .error e
      | .ok cs => .ok (.MoveTo (x : ℚ) (-(ny : ℚ)) :: cs) := by
  rw [parseTokens.eq_def]
  simp only []
  rw [if_pos (by decide)]
  split
  · rename_i e heq
    rw [getNum_fmtInt] at heq
    cases heq
  · rename_i x' r1 heq
    rw [getNum_fmtInt] at heq
    injection heq with heq'
    cases heq'
    split
    · rename_i e heq2
      rw [getNum_fmtInt] at heq2
      cases heq2
    · rename_i y' r2 heq2
      rw [getNum_fmtInt] at heq2
      injection heq2 with heq2'
      cases heq2'
      rfl

theorem parseTokens_L (x ny : Int) (l : List String) :
    parseTokens ("L" :: fmtInt x :: fmtInt ny :: l) =
      match parseTokens l with
      | .error e => .error e
      | .ok cs => .ok (.LineTo (x : ℚ) (-(ny : ℚ)) :: cs) := by
  rw [parseTokens.eq_def]
  simp only []
  rw [if_neg (by decide), if_pos (by decide)]
  split
  · rename_i e heq
    rw [getNum_fmtInt] at heq
    cases heq
  · rename_i x' r1 heq
    rw [getNum_fmtInt] at heq
    injection heq with heq'
    cases heq'
    split
    · rename_i e heq2
      rw [getNum_fmtInt] at heq2
      cases heq2
    · rename_i y' r2 heq2
      rw [getNum_fmtInt] at heq2
      injection heq2 with heq2'
      cases heq2'
      rfl

theorem parseTokens_Q (a b c d : Int) (l : List String) :
    parseTokens ("Q" :: fmtInt a :: fmtInt b :: fmtInt c :: fmtInt d :: l) =
      match parseTokens l with
      | .error e => .error e
      | .ok cs => .ok (.QuadTo (a : ℚ) (-(b : ℚ)) (c : ℚ) (-(d : ℚ)) :: cs) := by
  rw [parseTokens.eq_def]
  simp only []
  rw [if_neg (by decide), if_neg (by decide), if_pos (by decide)]
  split
  · rename_i e heq
    rw [getNum_fmtInt] at heq
    cases heq
  · rename_i x' r1 heq
    rw [getNum_fmtInt] at heq
    injection heq with heq'
    cases heq'
    split
    · rename_i e heq2
      rw [getNum_fmtInt] at heq2
      cases heq2
    · rename_i y' r2 heq2
      rw [getNum_fmtInt] at heq2
      injection heq2 with heq2'
      cases heq2'
      split
      · rename_i e heq3
        rw [getNum_fmtInt] at heq3
        cases heq3
      · rename_i z' r3 heq3
        rw [getNum_fmtInt] at heq3
        injection heq3 with heq3'
        cases heq3'
        split
        · rename_i e heq4
          rw [getNum_fmtInt] at heq4
          cases heq4
        · rename_i w' r4 heq4
          rw [getNum_fmtInt] at heq4
          injection heq4 with heq4'
          cases heq4'
          rfl

theorem parseTokens_C (a b c d e₀ f : Int) (l : List String) :
    parseTokens ("C" :: fmtInt a :: fmtInt b :: fmtInt c :: fmtInt d ::
        fmtInt e₀ :: fmtInt f :: l) =
      match parseTokens l with
      | .error e => .error e
      | .ok cs => .ok (.CurveTo (a : ℚ) (-(b : ℚ)) (c : ℚ) (-(d : ℚ))
          (e₀ : ℚ) (-(f : ℚ)) :: cs) := by
  rw [parseTokens.eq_def]
  simp only []
  rw [if_neg (by decide), if_neg (by decide), if_neg (by decide),
    if_pos (by decide)]
  split
  · rename_i e heq
    rw [getNum_fmtInt] at heq
    cases heq
  · rename_i x' r1 heq
    rw [getNum_fmtInt] at heq
    injection heq with heq'
    cases heq'
    split
    · rename_i e heq2
      rw [getNum_fmtInt] at heq2
      cases heq2
    · rename_i y' r2 heq2
      rw [getNum_fmtInt] at heq2
      injection heq2 with heq2'
      cases heq2'
      split
      · rename_i e heq3
        rw [getNum_fmtInt] at heq3
        cases heq3
      · rename_i z' r3 heq3
        rw [getNum_fmtInt] at heq3
        injection heq3 with heq3'
        cases heq3'
        split
        · rename_i e heq4
          rw [getNum_fmtInt] at heq4
          cases heq4
        · rename_i w' r4 heq4
          rw [getNum_fmtInt] at heq4
          injection heq4 with heq4'
          cases heq4'
          split
          · rename_i e heq5
            rw [getNum_fmtInt] at heq5
            cases heq5
          · rename_i v' r5 heq5
            rw [getNum_fmtInt] at heq5
            injection heq5 with heq5'
            cases heq5'
            split
            · rename_i e heq6
              rw [getNum_fmtInt] at heq6
              cases heq6
            · rename_i u' r6 heq6
              rw [getNum_fmtInt] at heq6
              injection heq6 with heq6'
              cases heq6'
              rfl

theorem parseTokens_Z (l : List String) :
    parseTokens ("Z" :: l) =
      match parseTokens l with
      | .error e => .error e
      | .ok cs => .ok (.Close :: cs) := by
  rw [parseTokens.eq_def]
  simp only []
  rw [if_neg (by decide), if_neg (by decide), if_neg (by decide),
    if_neg (by decide), if_pos (by decide)]

theorem parse_of_penEmit (evs : List PenEvent) :
    parse_svg_path_cmds (svgPathPenEmit evs) = .ok (evs.map penEventToCmd) := by
  induction evs with
  | nil =>
    have h1 : tokenizeLoop [] = [] := by rw [tokenizeLoop.eq_def]
    have h2 : parseTokens [] = .ok [] := by rw [parseTokens.eq_def]
    show parseTokens (tokenizeLoop ("" : String).data) = _
    rw [show ("" : String).data = ([] : List Char) from rfl, h1, h2]
    rfl
  | cons ev r ih =>
    have ihT : parseTokens (tokenizeLoop (svgPathPenEmit r).data) =
        .ok (r.map penEventToCmd) := ih
    cases ev with
    | moveTo x y =>
      show parseTokens (tokenizeLoop
        ("M" ++ fmtInt x ++ " " ++ fmtInt (-y) ++ " " ++ svgPathPenEmit r).data) = _
      simp only [String.data_append, show ("M" : String).data = ['M'] from rfl,
        show (" " : String).data = [' '] from rfl, List.append_assoc,
        List.singleton_append, List.cons_append, List.nil_append]
      rw [tokenizeLoop_letter 'M' (by decide), tokenizeLoop_fmtInt x,
        tokenizeLoop_fmtInt (-y)]
      rw [show ('M').toString = "M" from rfl, parseTokens_M, ihT]
      simp only [List.map_cons, penEventToCmd, Int.cast_neg, neg_neg]
    | lineTo x y =>
      show parseTokens (tokenizeLoop
        ("L" ++ fmtInt x ++ " " ++ fmtInt (-y) ++ " " ++ svgPathPenEmit r).data) = _
      simp only [String.data_append, show ("L" : String).data = ['L'] from rfl,
        show (" " : String).data = [' '] from rfl, List.append_assoc,
        List.singleton_append, List.cons_append, List.nil_append]
      rw [tokenizeLoop_letter 'L' (by decide), tokenizeLoop_fmtInt x,
        tokenizeLoop_fmtInt (-y)]
      rw [show ('L').toString = "L" from rfl, parseTokens_L, ihT]
      simp only [List.map_cons, penEventToCmd, Int.cast_neg, neg_neg]
    | quadTo cx cy x y =>
      show parseTokens (tokenizeLoop
        ("Q" ++ fmtInt cx ++ " " ++ fmtInt (-cy) ++ " " ++ fmtInt x ++ " " ++
          fmtInt (-y) ++ " " ++ svgPathPenEmit r).data) = _
      simp only [String.data_append, show ("Q" : String).data = ['Q'] from rfl,
        show (" " : String).data = [' '] from rfl, List.append_assoc,
        List.singleton_append, List.cons_append, List.nil_append]
      rw [tokenizeLoop_letter 'Q' (by decide), tokenizeLoop_fmtInt cx,
        tokenizeLoop_fmtInt (-cy), tokenizeLoop_fmtInt x,
        tokenizeLoop_fmtInt (-y)]
      rw [show ('Q').toString = "Q" from rfl, parseTokens_Q, ihT]
      simp only [List.map_cons, penEventToCmd, Int.cast_neg, neg_neg]
    | curveTo cx1 cy1 cx2 cy2 x y =>
      show parseTokens (tokenizeLoop
        ("C" ++ fmtInt cx1 ++ " " ++ fmtInt (-cy1) ++ " " ++ fmtInt cx2 ++ " " ++
          fmtInt (-cy2) ++ " " ++ fmtInt x ++ " " ++ fmtInt (-y) ++ " " ++
          svgPathPenEmit r).data) = _
      simp only [String.data_append, show ("C" : String).data = ['C'] from rfl,
        show (" " : String).data = [' '] from rfl, List.append_assoc,
        List.singleton_append, List.cons_append, List.nil_append]
      rw [tokenizeLoop_letter 'C' (by decide), tokenizeLoop_fmtInt cx1,
        tokenizeLoop_fmtInt (-cy1), tokenizeLoop_fmtInt cx2,
        tokenizeLoop_fmtInt (-cy2), tokenizeLoop_fmtInt x,
        tokenizeLoop_fmtInt (-y)]
      rw [show ('C').toString = "C" from rfl, parseTokens_C, ihT]
      simp only [List.map_cons, penEventToCmd, Int.cast_neg, neg_neg]
    | close =>
      show parseTokens (tokenizeLoop ("Z" ++ svgPathPenEmit r).data) = _
      simp only [String.data_append, show ("Z" : String).data = ['Z'] from rfl,
        List.singleton_append]
      rw [tokenizeLoop_letter 'Z' (by decide)]
      rw [show ('Z').toString = "Z" from rfl, parseTokens_Z, ihT]
      simp only [List.map_cons, penEventToCmd]

/-- C4.  The string pen emits each coordinate pair with X unchanged and Y
negated, and the path parser negates every Y it reads: parsing a path emitted
by the pen yields exactly the original font-space commands — the Y flip is an
involution, so every coordinate (in particular its sign, per axis) matches
the font-space source. -/
theorem svg_roundtrip_y_flip (evs : List PenEvent) :
    parse_svg_path_cmds (svgPathPenEmit evs) = .ok (evs.map penEventToCmd) :=
  parse_of_penEmit evs

/- ── C7: cubic commands abort the save before any write ─────────────────── -/

theorem buildGlyfLoop_cubic (cmds : List SvgCmd)
    (contours : List (List GlyfPt)) (cur : List GlyfPt)
    (h : cmds.any isCurveTo = true) :
    buildGlyfLoop cmds contours cur = .error cubicMsg := by
  induction cmds generalizing contours cur with
  | nil => simp at h
  | cons cmd rest ih =>
    cases cmd with
    | CurveTo a b c d e f => simp [buildGlyfLoop]
    | MoveTo x y =>
      simp only [List.any_cons, isCurveTo, Bool.false_or] at h
      simp only [buildGlyfLoop]
      exact ih _ _ h
    | LineTo x y =>
      simp only [List.any_cons, isCurveTo, Bool.false_or] at h
      simp only [buildGlyfLoop]
      exact ih _ _ h
    | QuadTo cx cy x y =>
      simp only [List.any_cons, isCurveTo, Bool.false_or] at h
      simp only [buildGlyfLoop]
      exact ih _ _ h
    | Close =>
      simp only [List.any_cons, isCurveTo, Bool.false_or] at h
      simp only [buildGlyfLoop]
      exact ih _ _ h

theorem build_glyf_cubic (cmds : List SvgCmd) (h : cmds.any isCurveTo = true) :
    build_glyf_glyph_bytes cmds = .error cubicMsg := by
  simp only [build_glyf_glyph_bytes, buildGlyfLoop_cubic cmds [] [] h]

/-- C7.  A `saveGlyphOutline` call on the glyf table whose path parses to a
command list containing a cubic (`C`) command fails with the cubic-rejection
error, and the failure happens before any file write: the file on disk, the
byte cache and the outline cache are all left exactly as they were. -/
theorem save_cubic_rejected (decode : List Nat → Option FontT)
    (compose : FontT → List Nat → List Nat → List Nat → Bool → List Nat)
    (path : String) (args : SaveArgs) (w : WorldM) (ft : FontT)
    (cmds : List SvgCmd)
    (htrim : rustTrim args.table_name = "glyf")
    (hbytes : availBytes w.cacheFonts w.fileBytes ≠ [])
    (hdecode : decode (availBytes w.cacheFonts w.fileBytes) = some ft)
    (hparse : parse_svg_path_cmds args.svg_path = .ok cmds)
    (hcubic : cmds.any isCurveTo = true) :
    save_glyph_outline decode compose path args w = (.error cubicMsg, w) := by
  simp only [save_glyph_outline]
  rw [if_neg (by simp [htrim]), if_neg hbytes, hdecode]
  simp only [hparse, build_glyf_cubic cmds hcubic]

/-- C7 witness: saving the pen-emitted path of a triangle drawn with one
cubic segment is rejected with the cubic error and leaves the concrete world
untouched. -/
theorem save_cubic_rejected_witness :
    save_glyph_outline (fun _ => some ⟨some false, some 1, some [], some [],
        some [], some (1, 0), false⟩) (fun _ _ _ _ _ => []) "f.ttf"
      ⟨5, svgPathPenEmit [.moveTo 0 0,
        .curveTo 25 100 75 100 100 0, .close], "glyf"⟩
      ⟨[1], none, none⟩ =
    (.error cubicMsg, ⟨[1], none, none⟩) := by
  refine save_cubic_rejected _ _ _ _ _
    ⟨some false, some 1, some [], some [], some [], some (1, 0), false⟩
    ([.moveTo 0 0, .curveTo 25 100 75 100 100 0,
      .close].map penEventToCmd) ?_ ?_ ?_ ?_ ?_
  · decide
  · decide
  · rfl
  · exact parse_of_penEmit _
  · decide

/- ── C9: hmtx extension ─────────────────────────────────────────────────── -/

theorem flatten_replicate_pair (n : Nat) :
    (List.replicate n ([0, 0] : List Nat)).flatten = List.replicate (2 * n) 0 := by
  induction n with
  | zero => rfl
  | succ n ih =>
    rw [List.replicate_succ, List.flatten_cons, ih,
      show 2 * (n + 1) = (2 * n + 1) + 1 by omega,
      List.replicate_succ, List.replicate_succ]
    rfl

/-- C9.  Saving with new glyphs extends hmtx to exactly the original bytes
followed by one 2-byte zero LSB entry per added glyph, so its length grows by
2 bytes per new glyph; and, by the hmtx format, every new glyph (being at or
beyond `numberOfHMetrics`) inherits the advance width of the last full
metrics entry of the original table. -/
theorem extend_hmtx_spec (hmtx : List Nat) (cur tgt numH daw : Nat)
    (hct : cur ≤ tgt) (hH1 : 1 ≤ numH) (hHcur : numH ≤ cur)
    (hHlen : numH * 4 ≤ hmtx.length) :
    (extend_hmtx hmtx cur tgt numH daw =
      hmtx ++ List.replicate (2 * (tgt - cur)) 0) ∧
    ((extend_hmtx hmtx cur tgt numH daw).length =
      hmtx.length + 2 * (tgt - cur)) ∧
    (∀ gid, cur ≤ gid → gid < tgt →
      hmtxAdvance (extend_hmtx hmtx cur tgt numH daw) numH gid =
        hmtxAdvance hmtx numH (numH - 1)) := by
  have heq : extend_hmtx hmtx cur tgt numH daw =
      hmtx ++ List.replicate (2 * (tgt - cur)) 0 := by
    simp only [extend_hmtx, toBE16]
    norm_num
    rw [flatten_replicate_pair]
  refine ⟨heq, by simp [heq], ?_⟩
  intro gid hg1 hg2
  have hgid : ¬ (gid < numH) := by omega
  have hlast : numH - 1 < numH := by omega
  simp only [hmtxAdvance, if_neg hgid, if_pos hlast, heq]
  rw [List.getD_append _ _ _ _ (by omega), List.getD_append _ _ _ _ (by omega)]

/-- C9 witness: extending a one-entry hmtx (advance 0x0102, LSB 3) from one
glyph to three adds two zero LSB entries, and both new glyphs inherit the
advance of the last metrics entry. -/
theorem extend_hmtx_spec_witness :
    (extend_hmtx [1, 2, 0, 3] 1 3 1 9 =
      [1, 2, 0, 3] ++ List.replicate (2 * (3 - 1)) 0) ∧
    ((extend_hmtx [1, 2, 0, 3] 1 3 1 9).length = 4 + 2 * (3 - 1)) ∧
    (hmtxAdvance (extend_hmtx [1, 2, 0, 3] 1 3 1 9) 1 2 =
      hmtxAdvance [1, 2, 0, 3] 1 0) := by
  have h := extend_hmtx_spec [1, 2, 0, 3] 1 3 1 9 (by decide) (by decide)
    (by decide) (by decide)
  exact ⟨h.1, h.2.1, h.2.2 2 (by decide) (by decide)⟩

/- ── C10: behaviour when the font bytes cannot be obtained ──────────────── -/

/-- C10 counterexample.  When an OutlineSet is already memoised for the path,
`getGlyphOutlinesBinary` serves it without touching the bytes and succeeds
even though the byte cache is empty and the file read yields nothing — so
"every other operation returns an error in that situation" is false as
stated. -/
theorem missing_bytes_outlines_cache_counterexample :
    availBytes none [] = ([] : List Nat) ∧
    get_glyph_outlines_binary (some ⟨[], 1000, 7⟩) "f.ttf" none []
        (.error "unread") false none none 0 10 =
      .ok (encode_glyph_outlines_binary [] 7 1000, ⟨[], 1000, 7⟩) :=
  ⟨rfl, rfl⟩

/-- C10 amended.  When the font bytes cannot be obtained (no cached bytes and
the file read yields nothing), `checkFontHinting` succeeds with
`is_hinted = false` and no hint format; `getGlyphOutlineData`,
`saveGlyphOutline` (for any arguments; the failure also leaves the world
unchanged) and `getHintedGlyphOutlines` fail; and `getGlyphOutlinesBinary`
fails unless an OutlineSet is already memoised for the path, in which case it
serves the cache without touching the bytes. -/
theorem missing_bytes_behavior (path : String) (cacheB : Option (List Nat))
    (fileB : List Nat) (decodeH : List Nat → Option HintFont)
    (extract : Except String (List GlyphOutlineB)) (fontOk : Bool)
    (hu hm : Option Nat) (off lim : Nat)
    (fontOf : List Nat → Option FontModel) (gid : Nat)
    (draw : List Nat → Nat → List ℚ → Except String (List String))
    (px : List ℚ)
    (hbytes : availBytes cacheB fileB = []) :
    (check_font_hinting decodeH path cacheB fileB = .ok ⟨false, none⟩) ∧
    (get_glyph_outlines_binary none path cacheB fileB extract fontOk hu hm
        off lim = .error ("Failed to read font file: " ++ path)) ∧
    (get_glyph_outline_data fontOf path cacheB fileB gid =
      .error ("Failed to read font file: " ++ path)) ∧
    (∀ (args : SaveArgs) (decode : List Nat → Option FontT)
        (compose : FontT → List Nat → List Nat → List Nat → Bool → List Nat)
        (w : WorldM), w.cacheFonts = cacheB → w.fileBytes = fileB →
      save_glyph_outline decode compose path args w =
        (.error (if rustTrim args.table_name = "glyf" then
          "Failed to read font file: " ++ path
        else
          "Saving outlines for this table is not yet supported. Only the glyf table can be saved."),
         w)) ∧
    (get_hinted_glyph_outlines draw path cacheB fileB gid px =
      .error ("Failed to read font file: " ++ path)) ∧
    (∀ c : CachedOutlinesM,
      get_glyph_outlines_binary (some c) path cacheB fileB extract fontOk hu
          hm off lim =
        .ok (encode_glyph_outlines_binary (servePage c off lim) c.num_glyphs
          c.units_per_em, c)) := by
  refine ⟨?_, ?_, ?_, ?_, ?_, fun c => rfl⟩
  · simp [check_font_hinting, hbytes]
  · simp [get_glyph_outlines_binary, hbytes]
  · simp [get_glyph_outline_data, hbytes]
  · intro args decode compose w hwc hwf
    by_cases htn : rustTrim args.table_name = "glyf"
    · simp [save_glyph_outline, htn, hwc, hwf, hbytes]
    · simp [save_glyph_outline, htn]
  · simp [get_hinted_glyph_outlines, hbytes]

/-- C10 amended witness: the concrete empty-bytes situation. -/
theorem missing_bytes_behavior_witness :
    (check_font_hinting (fun _ => none) "g.ttf" none [] = .ok ⟨false, none⟩) ∧
    (get_glyph_outline_data (fun _ => none) "g.ttf" none [] 3 =
      .error ("Failed to read font file: " ++ "g.ttf")) ∧
    (save_glyph_outline (fun _ => none) (fun _ _ _ _ _ => []) "g.ttf"
        ⟨3, "", "glyf"⟩ ⟨[], none, none⟩ =
      (.error (if rustTrim "glyf" = "glyf" then
        "Failed to read font file: " ++ "g.ttf"
      else
        "Saving outlines for this table is not yet supported. Only the glyf table can be saved."),
       ⟨[], none, none⟩)) := by
  have h := missing_bytes_behavior "g.ttf" none [] (fun _ => none)
    (.error "e") false none none 0 1 (fun _ => none) 3
    (fun _ _ _ => .error "e") [] rfl
  exact ⟨h.1, h.2.2.1, h.2.2.2.1 ⟨3, "", "glyf"⟩ (fun _ => none)
    (fun _ _ _ _ _ => []) ⟨[], none, none⟩ rfl rfl⟩

/- ── C5: composite glyphs and the recursion depth bound ─────────────────── -/

theorem buildRec_composite_contours (f : FontModel) (gid depth : Nat)
    (d : GOD) (h : buildRec f gid depth = some d)
    (hc : f.isComposite gid = true) : godContours d = [] := by
  rw [buildRec.eq_def] at h
  split at h
  · cases h
  · split at h
    · cases h
    · injection h with h'
      subst h'
      simp [godContours, hc]

theorem buildRec_chain : ∀ n : Nat, n ≤ 5 → ∀ g : Nat,
    buildRec chainFont g (5 - n) = some (chainGOD g n) := by
  intro n
  induction n with
  | zero =>
    intro _ g
    have h6 : buildRec chainFont (g + 1) 6 = none := by
      rw [buildRec.eq_def]
      rw [dif_pos (by omega)]
    show buildRec chainFont g 5 = some (chainGOD g 0)
    rw [buildRec.eq_def]
    rw [dif_neg (by omega)]
    simp only [show chainFont.glyphHasOutline g = true from rfl,
      show chainFont.isComposite g = true from rfl,
      show chainFont.components g = [(g + 1, (0 : ℚ), (0 : ℚ))] from rfl,
      show chainFont.advance g = 0 from rfl,
      show chainFont.lsb g = 0 from rfl,
      show chainFont.simpleBounds g = none from rfl,
      show chainFont.simpleContours g = [] from rfl,
      Bool.true_eq_false, if_false, if_true, List.map_cons, List.map_nil]
    rw [show (5 : Nat) + 1 = 6 from rfl, h6]
    rfl
  | succ n ih =>
    intro hn g
    have hd : 5 - (n + 1) + 1 = 5 - n := by omega
    have hih := ih (by omega) (g + 1)
    rw [buildRec.eq_def]
    rw [dif_neg (by omega)]
    simp only [show chainFont.glyphHasOutline g = true from rfl,
      show chainFont.isComposite g = true from rfl,
      show chainFont.components g = [(g + 1, (0 : ℚ), (0 : ℚ))] from rfl,
      show chainFont.advance g = 0 from rfl,
      show chainFont.lsb g = 0 from rfl,
      show chainFont.simpleBounds g = none from rfl,
      show chainFont.simpleContours g = [] from rfl,
      Bool.true_eq_false, if_false, if_true, List.map_cons, List.map_nil]
    rw [hd, hih]
    rfl

/-- C5.  A composite glyph's own contour list is empty (its components are
not flattened into it), and component resolution stops after depth 5: on the
chain font where glyph 1 is composed of glyph 2, glyph 2 of glyph 3, and so
on, the tree built for glyph 1 resolves components down to nesting level 5
(glyph 6), whose component record for glyph 7 has an absent outline. -/
theorem composite_depth_limit :
    (∀ (f : FontModel) (gid depth : Nat) (d : GOD),
      buildRec f gid depth = some d → f.isComposite gid = true →
      godContours d = []) ∧
    (buildRec chainFont 1 0 = some (chainGOD 1 5)) ∧
    (descendIter 5 (buildRec chainFont 1 0) = some (chainGOD 6 0)) ∧
    (godComponents (chainGOD 6 0) = [(7, 0, 0, none)]) := by
  have hchain : buildRec chainFont 1 0 = some (chainGOD 1 5) :=
    buildRec_chain 5 (by omega) 1
  refine ⟨buildRec_composite_contours, hchain, ?_, rfl⟩
  rw [hchain]
  rfl

/-- C5 witness: the depth-5 node of the chain (glyph 6) is itself composite
with empty contours, and is reached by five descents from glyph 1's tree. -/
theorem composite_depth_limit_witness :
    godContours (chainGOD 1 5) = [] ∧
    descendIter 5 (buildRec chainFont 1 0) = some (chainGOD 6 0) :=
  ⟨composite_depth_limit.1 chainFont 1 0 (chainGOD 1 5)
    composite_depth_limit.2.1 rfl,
   composite_depth_limit.2.2.1⟩

/- ── C6: name table update ──────────────────────────────────────────────── -/

theorem updateNameLoop_get? (nameId platformId : Nat) (value : String) :
    ∀ (records : List NameRecordIn) (i : Nat) (r : NameRecordIn),
    records.get? i = some r →
    (updateNameLoop nameId platformId value records).1.get? i =
      some (if nameMatches nameId platformId r then
        ⟨r.platform_id, r.encoding_id, r.language_id, r.name_id, value⟩
      else
        ⟨r.platform_id, r.encoding_id, r.language_id, r.name_id,
          r.decoded.getD ""⟩) := by
  intro records
  induction records with
  | nil => intro i r h; simp at h
  | cons r0 rest ih =>
    intro i r h
    match i with
    | 0 =>
      simp only [List.get?_cons_zero, Option.some.injEq] at h
      subst h
      by_cases hm : nameMatches nameId platformId r0
      · simp [updateNameLoop, hm]
      · simp [updateNameLoop, hm]
    | i + 1 =>
      simp only [List.get?_cons_succ] at h
      have := ih i r h
      by_cases hm : nameMatches nameId platformId r0
      · simpa [updateNameLoop, hm] using this
      · simpa [updateNameLoop, hm] using this

theorem updateNameLoop_found (nameId platformId : Nat) (value : String) :
    ∀ records : List NameRecordIn,
    (updateNameLoop nameId platformId value records).2 =
      records.any (nameMatches nameId platformId) := by
  intro records
  induction records with
  | nil => rfl
  | cons r0 rest ih =>
    by_cases hm : nameMatches nameId platformId r0
    · simp [updateNameLoop, hm]
    · simp [updateNameLoop, hm, ih]

/-- C6 counterexample.  An update `{nameId 1, platformId 3, value "New"}`
against records `[{3,1,0x409,1,"Old"}, {3,1,0x409,2, undecodable}]` succeeds,
but the non-matching record 2 is NOT preserved verbatim: its string is
rewritten as the empty string (`unwrap_or_default` on a failed decode), so
its text — whatever its bytes held — is lost. -/
theorem name_update_not_verbatim_counterexample :
    ((updateNameLoop 1 3 "New"
        [⟨3, 1, 0x409, 1, some "Old"⟩, ⟨3, 1, 0x409, 2, none⟩]).2 = true) ∧
    ((updateNameLoop 1 3 "New"
        [⟨3, 1, 0x409, 1, some "Old"⟩, ⟨3, 1, 0x409, 2, none⟩]).1.get? 1 =
      some ⟨3, 1, 0x409, 2, ""⟩) ∧
    (nameMatches 1 3 ⟨3, 1, 0x409, 2, none⟩ = false) ∧
    ((⟨3, 1, 0x409, 2, none⟩ : NameRecordIn).decoded ≠ some "") := by
  refine ⟨by decide, by decide, by decide, by decide⟩

/-- C6 amended.  `updateNameTable` replaces the string of every record
matching `(nameId, platformId)` with the new value; every other record keeps
its platform, encoding, language and name ids and keeps its decoded text when
the decode succeeds (an undecodable string becomes empty); when no record
matches it fails with the no-matching-record error and leaves the file and
both caches unchanged; on success it writes the re-encoded font and drops the
outline cache. -/
theorem name_update_behavior (nameId platformId : Nat) (value : String)
    (records : List NameRecordIn) (decode : List Nat → Option (List NameRecordIn))
    (encode : List NameRecordOut → List Nat) (path : String) (w : WorldM)
    (hbytes : availBytes w.cacheFonts w.fileBytes ≠ [])
    (hdecode : decode (availBytes w.cacheFonts w.fileBytes) = some records) :
    (∀ i r, records.get? i = some r →
      (updateNameLoop nameId platformId value records).1.get? i =
        some (if nameMatches nameId platformId r then
          ⟨r.platform_id, r.encoding_id, r.language_id, r.name_id, value⟩
        else
          ⟨r.platform_id, r.encoding_id, r.language_id, r.name_id,
            r.decoded.getD ""⟩)) ∧
    (records.any (nameMatches nameId platformId) = false →
      update_name_table decode encode path nameId platformId value w =
        (.error ("No name record found for name_id=" ++ toString nameId ++
          " platform_id=" ++ toString platformId), w)) ∧
    (records.any (nameMatches nameId platformId) = true →
      update_name_table decode encode path nameId platformId value w =
        (.ok (), ⟨encode (updateNameLoop nameId platformId value records).1,
          some (encode (updateNameLoop nameId platformId value records).1),
          none⟩)) := by
  refine ⟨fun i r h => updateNameLoop_get? nameId platformId value records i r h,
    ?_, ?_⟩
  · intro hnone
    simp only [update_name_table, if_neg hbytes, hdecode]
    rw [if_pos (by rw [updateNameLoop_found]; exact hnone)]
  · intro hsome
    simp only [update_name_table, if_neg hbytes, hdecode]
    rw [if_neg (by rw [updateNameLoop_found, hsome]; simp)]

/-- C6 amended witness: the two-record scenario of the spec. -/
theorem name_update_behavior_witness :
    ((updateNameLoop 1 3 "New"
        [⟨3, 1, 0x409, 1, some "Old"⟩, ⟨3, 1, 0x409, 2, some "Regular"⟩]).1.get? 0 =
      some ⟨3, 1, 0x409, 1, "New"⟩) ∧
    (update_name_table (fun _ => some [⟨3, 1, 0x409, 1, some "Old"⟩,
        ⟨3, 1, 0x409, 2, some "Regular"⟩]) (fun _ => [7]) "f.ttf" 1 3 "New"
        ⟨[1], none, none⟩ =
      (.ok (), ⟨[7], some [7], none⟩)) := by
  have h := name_update_behavior 1 3 "New"
    [⟨3, 1, 0x409, 1, some "Old"⟩, ⟨3, 1, 0x409, 2, some "Regular"⟩]
    (fun _ => some [⟨3, 1, 0x409, 1, some "Old"⟩, ⟨3, 1, 0x409, 2, some "Regular"⟩])
    (fun _ => [7]) "f.ttf" ⟨[1], none, none⟩ (by decide) rfl
  constructor
  · have := h.1 0 ⟨3, 1, 0x409, 1, some "Old"⟩ (by decide)
    simpa using this
  · exact h.2.2 (by decide)

end FontParser
